import Mathlib

/-!
A verification development for gmid (ge)

A shallow embedding of `ge.c` (the single-directory Gemini server of gmid)
and of the constants of `gmid.h` it relies on.

Conventions of the embedding

* A C string is a Lean `String`, one `Char` per C `char`; `strlcpy`
  truncation therefore counts characters.  The size of the reply header is
  bounded both as a number of characters and as a number of UTF-8 bytes.
* System constants that `gmid.h` takes from `<limits.h>` (`PATH_MAX`,
  `HOST_NAME_MAX`) are parameters, gathered in `Limits` together with the C
  library in use: `dirname(3)` differs between the C libraries on paths that
  begin with two slashes, and both behaviours are embedded.
* Library and system calls (`getenv`, `mkdir`, `open`, `socket`, `bind`,
  libtls, `getopt_long`, ...) are not part of the program: their results are
  read from an environment record `Env`, and every call that the properties
  speak about is recorded in a trace of `Event`s.
* `fatal`, `err`, `errx`, `exit` and `usage` do not return: they end the run
  with an `Outcome`.  The event loop `loop` lives in `server.c`; a run of
  `ge` is followed up to the call of `loop`.
-/

namespace Gmid

/-! ## gmid.h -/

/-- Models `#define GEMINI_URL_LEN (1024+3)`: URL max len + CRLF + NUL. -/
def GEMINI_URL_LEN : Nat := 1024 + 3

def SUCCESS : Nat := 20
def TEMP_REDIRECT : Nat := 30
def TEMP_FAILURE : Nat := 40
def CGI_ERROR : Nat := 42
def PROXY_ERROR : Nat := 43
def NOT_FOUND : Nat := 51
def PROXY_REFUSED : Nat := 53
def BAD_REQUEST : Nat := 59
def CLIENT_CERT_REQ : Nat := 60
def CERT_NOT_AUTH : Nat := 61

/-- The ten status constants of `gmid.h`, in the order of their definition. -/
def statusCodes : List Nat :=
  [SUCCESS, TEMP_REDIRECT, TEMP_FAILURE, CGI_ERROR, PROXY_ERROR,
   NOT_FOUND, PROXY_REFUSED, BAD_REQUEST, CLIENT_CERT_REQ, CERT_NOT_AUTH]

/-- A two-digit number: between 10 and 99. -/
def twoDigit (n : Nat) : Prop := 10 ≤ n ∧ n ≤ 99

instance (n : Nat) : Decidable (twoDigit n) := by unfold twoDigit; infer_instance

/-- The status class of a code: its tens digit. -/
def statusClass (n : Nat) : Nat := n / 10

/-- Models `char sbuf[1029]` of `struct client`. -/
def sbuf_size : Nat := 1029

/-- Modelled from the spec: the response header line that `start_reply`
(`server.c`, not among the sources) stores in `sbuf`; the spec gives its
layout as `<two-digit-status><SP><meta-line><CRLF>`. -/
def replyHeader (code : Nat) (meta : String) : String :=
  toString code ++ " " ++ meta ++ "\r\n"

/-- The C library that provides `dirname(3)`: that of OpenBSD (musl computes
the same function) or the GNU C library. -/
inductive Libc
  | bsd
  | glibc
  deriving DecidableEq, Repr

/-- System parameters used by `gmid.h` and `ge.c`: the limits of
`<limits.h>` and the C library. -/
structure Limits where
  PATH_MAX : Nat
  HOST_NAME_MAX : Nat
  libc : Libc
  deriving DecidableEq, Repr

/-! ## C library: strlcpy, dirname -/

/-- Models `strlcpy(dst, src, size)`: the content of `dst` after the call.  At most
`size - 1` characters of `src` are copied; with `size = 0` nothing is
written. -/
def strlcpy (dst src : String) (size : Nat) : String :=
  if size = 0 then dst else ⟨src.data.take (size - 1)⟩

/-- The loop `while (endp > path && *endp == '/') endp--;` of `dirname(3)`,
on the index `endp` into `p`. -/
def stripSlashes (p : List Char) : Nat → Nat
  | 0 => 0
  | e + 1 => if p[e + 1]? = some '/' then stripSlashes p e else e + 1

/-- The loop `while (endp > path && *endp != '/') endp--;` of `dirname(3)`. -/
def skipName (p : List Char) : Nat → Nat
  | 0 => 0
  | e + 1 => if p[e + 1]? = some '/' then e + 1 else skipName p e

/-- Models `dirname(3)` on path strings, after the libc implementation of OpenBSD
(musl computes the same function): the empty path gives `"."`; trailing
slashes are dropped, then the last component, then the slashes that
separate it; a path without a directory part gives `"/"` when it starts with
a slash and `"."` otherwise.  The result is at least two characters shorter
than a path it is a prefix of, so the `ENAMETOOLONG` exit of the library
function is not met on the buffer of `pdirname`. -/
def dirname_bsd (path : String) : String :=
  let p := path.data
  if p = [] then "."
  else
    let endp := skipName p (stripSlashes p (p.length - 1))
    if endp = 0 then
      (if p[0]? = some '/' then "/" else ".")
    else
      ⟨p.take (stripSlashes p (endp - 1) + 1)⟩

/-- Models `memrchr(path, '/', n)` (and `strrchr(path, '/')` for `n` the
length): the index of the last slash among the first `n` characters. -/
def memrchr (p : List Char) : Nat → Option Nat
  | 0 => none
  | n + 1 => if p[n]? = some '/' then some n else memrchr p n

/-- The loop `for (runp = last_slash; runp != path; --runp) if (runp[-1] != '/')
break;` of the `dirname(3)` of glibc, on the index `runp`. -/
def slashRun (p : List Char) : Nat → Nat
  | 0 => 0
  | r + 1 => if p[r]? = some '/' then slashRun p r else r + 1

/-- The first part of the `dirname(3)` of glibc: the slash at which the path
is cut.  It is the last slash (`strrchr`), unless that one ends the path and
is not its first character: then the run of slashes ending there is skipped
and the last slash before it is taken (`memrchr`), when that run does not
start the path.  The result `none` is `NULL`. -/
def last_slash (p : List Char) : Option Nat :=
  match memrchr p p.length with
  | none => none
  | some ls =>
    if ls ≠ 0 ∧ ls + 1 = p.length then
      (if slashRun p ls ≠ 0 then memrchr p (slashRun p ls) else some ls)
    else some ls

/-- Models `dirname(3)` on path strings, after the implementation of the GNU C
library (`misc/dirname.c`): without a slash to cut at the result is `"."`;
otherwise the path is cut at the start of the run of slashes that ends
there, and when that run starts the path the result is `"/"`, or `"//"`
when the run has exactly two slashes. -/
def dirname_glibc (path : String) : String :=
  let p := path.data
  match last_slash p with
  | none => "."
  | some ls =>
    let runp := slashRun p ls
    if runp = 0 then
      (if ls = 1 then ⟨p.take 2⟩ else ⟨p.take 1⟩)
    else ⟨p.take runp⟩

/-- Models `dirname(3)` of the C library `libc`. -/
def dirname (libc : Libc) (path : String) : String :=
  match libc with
  | .bsd => dirname_bsd path
  | .glibc => dirname_glibc path

/-! ## ge.c: pdirname -/

/-- Models `pdirname(path, dn)`: the string left in `dn`.  The path is first copied
into a buffer of `PATH_MAX + 1` bytes with `strlcpy`. -/
def pdirname (L : Limits) (path : String) : String :=
  dirname L.libc (strlcpy "" path (L.PATH_MAX + 1))

/-- A path that begins with `'/'`. -/
def isAbsolute (path : String) : Prop := path.data.head? = some '/'

instance (path : String) : Decidable (isAbsolute path) := by
  unfold isAbsolute; infer_instance

/-- A path that begins with exactly two slashes. -/
def doubleSlash (path : String) : Prop :=
  path.data[0]? = some '/' ∧ path.data[1]? = some '/' ∧ path.data[2]? ≠ some '/'

instance (path : String) : Decidable (doubleSlash path) := by
  unfold doubleSlash; infer_instance

/-- The paths for which the recursion of `mkdirs` ends: the absolute paths,
except, with the `dirname` of glibc, those that begin with exactly two
slashes. -/
def reachesRoot (L : Limits) (path : String) : Prop :=
  isAbsolute path ∧ (L.libc = .glibc → ¬ doubleSlash path)

instance (L : Limits) (path : String) : Decidable (reachesRoot L path) := by
  unfold reachesRoot; infer_instance

/-! ## Runs of the program -/

/-- What `mkdir(2)` reports: success, failure with `errno = EEXIST`, or
another failure (with its `strerror` text). -/
inductive MkdirResult
  | ok
  | eexist
  | failed (strerror : String)
  deriving DecidableEq, Repr

/-- One entry of the list returned by `getaddrinfo`, with the results the
system calls give for it: `socket` is the descriptor returned by `socket()`
(`none` for `-1`), `bind` and `listen` tell whether the calls succeed. -/
structure AddrInfo where
  socket : Option Nat
  bind : Bool
  listen : Bool
  deriving DecidableEq, Repr

/-- The external calls recorded along a run. -/
inductive Event
  | mkdir (path : String) (r : MkdirResult)
  | gen_certificate (hostname cert key : String)
  | open_dir (path : String) (fd : Option Nat)
  | keypair_file (cert key : String) (ok : Bool)
  | tls_configure (ok : Bool)
  | getaddrinfo (host service : String)
  | socket (fd : Option Nat)
  | bind (fd : Nat) (ok : Bool)
  | listen (fd : Nat) (ok : Bool)
  | close (fd : Nat)
  deriving DecidableEq, Repr

/-- Models `struct location` of `gmid.h` (the `X509_STORE *reqca` pointer is left
out; `match_` is the field `match`). -/
structure Location where
  match_ : String := ""
  lang : String := ""
  default_mime : String := ""
  index : String := ""
  auto_index : Int := 0
  block_code : Int := 0
  block_fmt : String := ""
  strip : Int := 0
  disable_log : Int := 0
  fcgi : Int := 0
  dir : String := ""
  dirfd : Int := 0
  deriving DecidableEq, Repr

/-- Models `struct vhost` of `gmid.h`; the tail queues are lists (`params`,
`aliases` and `proxies` by the names of their entries). -/
structure Vhost where
  domain : String := ""
  cert : String := ""
  key : String := ""
  ocsp : String := ""
  locations : List Location := []
  params : List (String × String) := []
  aliases : List String := []
  proxies : List String := []
  deriving DecidableEq, Repr

/-- The globals of `ge.c` that `main` writes: `conf.port`, `conf.verbose`
and the list `hosts`. -/
structure Globals where
  port : Int := 0
  verbose : Int := 0
  hosts : List Vhost := []
  deriving DecidableEq, Repr

/-- How a run ends when it does not simply go on. -/
inductive Outcome
  /-- Models `err(1, ...)`, `errx(1, ...)`, `_exit(...)`. -/
  | exit (status : Nat) (msg : String)
  /-- Models `usage()`: the usage text on stderr, then `exit(1)`. -/
  | usage
  /-- Models `fatal(...)`. -/
  | fatal (msg : String)
  /-- Models `return` from `main` before the server is started. -/
  | returned (status : Int)
  /-- The child of `fork()` in `logger_init`, which becomes the logger. -/
  | logger
  /-- Models `loop(ctx, sock, -1, NULL)` is entered, with the globals as they are. -/
  | loop (sock : Int) (g : Globals)
  /-- The run does not come to an end (unbounded recursion). -/
  | diverges
  deriving DecidableEq, Repr

/-- A run: the events so far, and either the outcome that ended it or the
value it went on with. -/
structure Run (α : Type) where
  trace : List Event
  res : Except Outcome α

namespace Run

/-- Go on with `a`, no event. -/
def ret {α : Type} (a : α) : Run α := ⟨[], .ok a⟩

/-- End the run with outcome `o`. -/
def stop {α : Type} (o : Outcome) : Run α := ⟨[], .error o⟩

/-- Record the event `e`. -/
def emit (e : Event) : Run Unit := ⟨[e], .ok ()⟩

/-- Sequencing: `f` runs only when `x` went on. -/
def andThen {α β : Type} (x : Run α) (f : α → Run β) : Run β :=
  match x.res with
  | .error o => ⟨x.trace, .error o⟩
  | .ok a => ⟨x.trace ++ (f a).trace, (f a).res⟩

instance : Monad Run where
  pure := ret
  bind := andThen

end Run

/-- Models `fatal(msg)`. -/
def fatal {α : Type} (msg : String) : Run α := Run.stop (.fatal msg)

/-- The results of `socketpair` and `fork` in `logger_init`. -/
inductive ForkResult
  | failed
  | child
  | parent
  deriving DecidableEq, Repr

/-- The environment of a run: what each external call returns. -/
structure Env where
  /-- Models `getenv(name)`; `none` is `NULL`. -/
  getenv : String → Option String
  /-- Models `asprintf(&s, fmt, ...) != -1`, by the string to be formed. -/
  asprintf : String → Bool
  /-- Models `mkdir(path, mode)`. -/
  mkdir : String → MkdirResult
  /-- Models `socketpair(...) != -1`. -/
  socketpair : Bool
  /-- Models `fork()`. -/
  fork : ForkResult
  /-- Models `strtonum(optarg, 0, UINT16_MAX, &errstr)`: the number, or `errstr`. -/
  strtonum : String → Except String Nat
  /-- Models `load_default_mime(&conf.mime) != -1`. -/
  load_default_mime : Bool
  /-- Models `access(path, R_OK) != -1`. -/
  access : String → Bool
  /-- Models `gen_certificate(hostname, cert, key)` (`utils.c`): `none` when it
  returns, the diagnostic when it ends the process. -/
  gen_certificate : String → String → String → Option String
  /-- Models `getcwd(path, sizeof(path))`; `none` is `NULL`. -/
  getcwd : Option String
  /-- Models `absolutify_path(path)` (`utils.c`). -/
  absolutify_path : String → String
  /-- Models `open(path, O_RDONLY|O_DIRECTORY)`; `none` is `-1`. -/
  open_dir : String → Option Nat
  /-- Models `tls_config_new() != NULL`. -/
  tls_config_new : Bool
  /-- Models `tls_server() != NULL`. -/
  tls_server : Bool
  /-- Models `tls_config_set_keypair_file(tlsconf, cert, key) == 0`. -/
  tls_config_set_keypair_file : String → String → Bool
  /-- Models `tls_configure(ctx, tlsconf) != -1`. -/
  tls_configure : Bool
  /-- Models `tls_error(ctx)`. -/
  tls_error : String
  /-- Models `getaddrinfo(host, service, &hints, &res0)`: the list `res0`, or the
  text `gai_strerror` gives for the error. -/
  getaddrinfo : String → String → Except String (List AddrInfo)

/-! ## ge.c: mkdirs, data_dir -/

/-- The last statement of `mkdirs`: `mkdir(path, mode)`, fatal unless it
succeeds or fails with `EEXIST`. -/
def mkdir_or_fatal (env : Env) (path : String) : Run Unit := do
  Run.emit (.mkdir path (env.mkdir path))
  match env.mkdir path with
  | .failed e => fatal ("can't mkdir " ++ path ++ ": " ++ e)
  | _ => pure ()

/-- Models `mkdirs(path, mode)`, with `fuel` bounding the depth of the recursion:
`none` when the bound is reached, otherwise the run of the call. -/
def mkdirs (L : Limits) (env : Env) : Nat → String → Option (Run Unit)
  | 0, _ => none
  | fuel + 1, path =>
    let dname := pdirname L path
    if dname = "/" then some (pure ())
    else
      match mkdirs L env fuel dname with
      | none => none
      | some r => some (r.andThen fun _ => mkdir_or_fatal env path)

/-- The call `mkdirs(t, 0755)` as a run.  A recursion depth of `t.length`
suffices whenever the recursion ends at all (`mkdirs_fuel_enough`);
otherwise the run diverges. -/
def mkdirs_run (L : Limits) (env : Env) (t : String) : Run Unit :=
  match mkdirs L env t.length t with
  | none => Run.stop .diverges
  | some r => r

/-- Models `if (asprintf(&t, fmt, ...) == -1) err(1, "asprintf")`, for the
string `t` to be formed. -/
def asprintf_or_err (env : Env) (t : String) : Run String :=
  if env.asprintf t then pure t else Run.stop (.exit 1 "asprintf")

/-- Models `data_dir()`: the string it returns. -/
def data_dir (L : Limits) (env : Env) : Run String := do
  let t ← (match env.getenv "XDG_DATA_HOME" with
    | none =>
      match env.getenv "HOME" with
      | none => Run.stop (.exit 1 "XDG_DATA_HOME and HOME both empty")
      | some home => asprintf_or_err env (home ++ "/.local/share/gmid")
    | some xdg => asprintf_or_err env (xdg ++ "/gmid") : Run String)
  mkdirs_run L env t
  pure t

/-! ## ge.c: load_local_cert, logger_init, serve, usage, main -/

/-- Models `load_local_cert(h, hostname, dir)`: the vhost `*h` after the call. -/
def load_local_cert (L : Limits) (env : Env) (h : Vhost) (hostname dir : String) :
    Run Vhost := do
  let cert ← asprintf_or_err env (dir ++ "/" ++ hostname ++ ".cert.pem")
  let key ← asprintf_or_err env (dir ++ "/" ++ hostname ++ ".key.pem")
  (if !env.access cert || !env.access key then do
      Run.emit (.gen_certificate hostname cert key)
      match env.gen_certificate hostname cert key with
      | some msg => fatal msg
      | none => pure ()
    else pure () : Run Unit)
  pure { h with
    cert := strlcpy h.cert cert L.PATH_MAX
    key := strlcpy h.key key L.PATH_MAX
    domain := strlcpy h.domain hostname (L.HOST_NAME_MAX + 1) }

/-- Models `logger_init()`, followed in the parent process. -/
def logger_init (env : Env) : Run Unit :=
  if !env.socketpair then Run.stop (.exit 1 "socketpair")
  else
    match env.fork with
    | .failed => Run.stop (.exit 1 "fork")
    | .child => Run.stop .logger
    | .parent => pure ()

/-- The `for` loop of `serve` over the list of `getaddrinfo`, from the
entry `res` on, with the current values of `sock` and `cause`; it gives
their values when the loop is left. -/
def serve_loop : List AddrInfo → Int → Option String → Run (Int × Option String)
  | [], sock, cause => pure (sock, cause)
  | res :: next, _, cause => do
    Run.emit (.socket res.socket)
    match res.socket with
    | none => serve_loop next (-1) (some "socket")
    | some fd =>
      Run.emit (.bind fd res.bind)
      if !res.bind then
        Run.emit (.close fd)
        serve_loop next fd (some "bind")
      else
        Run.emit (.listen fd res.listen)
        if !res.listen then fatal "listen"
        else pure (fd, cause)

/-- Models `serve(host, port, dir, ctx)`, up to the call of `loop`
(`snprintf` of the port into `service` is taken to succeed; a `NULL`
cause is printed as `(null)`).  The argument `dir` is only logged and `ctx`
is only handed on to `loop`: both are left out.  The globals `g` are what
`loop` finds. -/
def serve (env : Env) (g : Globals) (host : String) (port : Int) : Run Unit := do
  Run.emit (.getaddrinfo host (toString port))
  match env.getaddrinfo host (toString port) with
  | .error e => fatal e
  | .ok res0 =>
    let (sock, cause) ← serve_loop res0 (-1) none
    if sock = -1 then fatal (cause.getD "(null)")
    else Run.stop (.loop sock g)

/-- Models `usage()`. -/
def usage {α : Type} : Run α := Run.stop .usage

/-- The option string handed to `getopt_long` by `main`. -/
def optstring : String := "d:H:hp:Vv"

/-- One result of `getopt_long(argc, argv, "d:H:hp:Vv", opts, NULL)` other
than `-1`: the character returned and `optarg`. -/
structure GetoptRet where
  ch : Char
  optarg : String := ""
  deriving DecidableEq, Repr

/-- The locals `certs_dir` and `hostname` of `main` and the global
`conf.port`, which the option loop sets. -/
structure Options where
  certs_dir : Option String := none
  hostname : String := "localhost"
  port : Int := 1965
  deriving DecidableEq, Repr

/-- The `while ((ch = getopt_long(...)) != -1) switch (ch)` loop of `main`,
over the successive results of `getopt_long`. -/
def option_loop (env : Env) : List GetoptRet → Options → Run Options
  | [], o => pure o
  | g :: rest, o =>
    if g.ch = 'd' then option_loop env rest { o with certs_dir := some g.optarg }
    else if g.ch = 'H' then option_loop env rest { o with hostname := g.optarg }
    else if g.ch = 'h' then usage
    else if g.ch = 'p' then
      match env.strtonum g.optarg with
      | .error errstr => fatal ("port number is " ++ errstr ++ ": " ++ g.optarg)
      | .ok n => option_loop env rest { o with port := n }
    else if g.ch = 'V' then Run.stop (.returned 0)
    else usage

/-- What `main` has set up when it calls `serve`: the arguments of the call
(`hostname`, `conf.port`) and the globals. -/
structure Setup where
  hostname : String
  g : Globals
  deriving DecidableEq, Repr

/-- Models `main(argc, argv)` up to (not including) the call of `serve`.
The command line is given by the results `opts` of `getopt_long` and by the
operands `args` left after the options (`argv + optind`).  The pointers
`host` and `loc` are followed as values and stored in `hosts` with their
final content (`xcalloc` is taken to succeed). -/
def main_setup (L : Limits) (env : Env) (opts : List GetoptRet) (args : List String) :
    Run Setup := do
  logger_init env
  let o ← option_loop env opts {}
  (if args.length > 1 then usage else pure () : Run Unit)
  -- prepare the configuration
  let certs_dir ← (match o.certs_dir with
    | none => data_dir L env
    | some d => pure d : Run String)
  (if !env.load_default_mime then fatal "can't load default mime types"
    else pure () : Run Unit)
  -- set up the implicit vhost and location
  let host : Vhost := {}
  let loc : Location := { fcgi := -1 }
  let host ← load_local_cert L env host o.hostname certs_dir
  let host := { host with domain := strlcpy host.domain "*" (L.HOST_NAME_MAX + 1) }
  let loc := { loc with auto_index := 1 }
  let loc := { loc with match_ := strlcpy loc.match_ "*" 128 }
  let dir ← (match args.head? with
    | none =>
      match env.getcwd with
      | none => fatal "getcwd"
      | some path => pure (strlcpy loc.dir path L.PATH_MAX)
    | some arg => pure (strlcpy loc.dir (env.absolutify_path arg) L.PATH_MAX) : Run String)
  let loc := { loc with dir := dir }
  Run.emit (.open_dir loc.dir (env.open_dir loc.dir))
  let dirfd ← (match env.open_dir loc.dir with
    | none => fatal ("can't open " ++ loc.dir)
    | some fd => pure (fd : Int) : Run Int)
  let loc := { loc with dirfd := dirfd }
  -- setup tls
  (if !env.tls_config_new then fatal "tls_config_new" else pure () : Run Unit)
  (if !env.tls_server then fatal "tls_server failure" else pure () : Run Unit)
  Run.emit (.keypair_file host.cert host.key (env.tls_config_set_keypair_file host.cert host.key))
  (if !env.tls_config_set_keypair_file host.cert host.key then
      fatal ("can't load the keypair (" ++ host.cert ++ ", " ++ host.key ++ ")")
    else pure () : Run Unit)
  Run.emit (.tls_configure env.tls_configure)
  (if !env.tls_configure then fatal ("tls_configure: " ++ env.tls_error)
    else pure () : Run Unit)
  pure { hostname := o.hostname,
         g := { port := o.port, verbose := 1,
                hosts := [{ host with locations := [loc] }] } }

/-- Models `main(argc, argv)`, up to the call of `loop`: the setup, then
`return serve(hostname, conf.port, loc->dir, ctx)`. -/
def main (L : Limits) (env : Env) (opts : List GetoptRet) (args : List String) : Run Unit :=
  (main_setup L env opts args).andThen fun s => serve env s.g s.hostname s.g.port

/-- No entry of the list binds: `socket()` or `bind()` fails for each. -/
def noneBinds (l : List AddrInfo) : Prop := ∀ c ∈ l, c.socket = none ∨ c.bind = false

/-- The run does not end in a call of `loop`. -/
def Run.noLoop {α : Type} (x : Run α) : Prop := ∀ sock g, x.res ≠ .error (.loop sock g)

/-- The events of the file-system part of the setup: `mkdir` and
`gen_certificate`. -/
def Event.isFs : Event → Bool
  | .mkdir _ _ => true
  | .gen_certificate _ _ _ => true
  | _ => false

/-- The events of `serve`: `getaddrinfo`, `socket`, `bind`, `listen` and
`close`. -/
def Event.isNet : Event → Bool
  | .getaddrinfo _ _ => true
  | .socket _ => true
  | .bind _ _ => true
  | .listen _ _ => true
  | .close _ => true
  | _ => false

/-! ## A concrete system, for instances of the theorems -/

/-- The limits and C library of an OpenBSD system. -/
def sampleLimits : Limits := { PATH_MAX := 1024, HOST_NAME_MAX := 255, libc := .bsd }

/-- The limits and C library of a Linux system with glibc. -/
def linuxLimits : Limits := { PATH_MAX := 4096, HOST_NAME_MAX := 64, libc := .glibc }

/-- An environment in which every call succeeds: `XDG_DATA_HOME` is
`/home/op/.local/share` and its directories exist, the certificate files are
readable, and the one address of `getaddrinfo` binds on descriptor 4. -/
def sampleEnv : Env where
  getenv := fun n => if n = "XDG_DATA_HOME" then some "/home/op/.local/share" else none
  asprintf := fun _ => true
  mkdir := fun _ => .eexist
  socketpair := true
  fork := .parent
  strtonum := fun s =>
    match s.toNat? with
    | some n => if n ≤ 65535 then .ok n else .error "too large"
    | none => .error "invalid"
  load_default_mime := true
  access := fun _ => true
  gen_certificate := fun _ _ _ => none
  getcwd := some "/var/gemini"
  absolutify_path := id
  open_dir := fun _ => some 3
  tls_config_new := true
  tls_server := true
  tls_config_set_keypair_file := fun _ _ => true
  tls_configure := true
  tls_error := ""
  getaddrinfo := fun _ _ => .ok [{ socket := some 4, bind := true, listen := true }]

/-- The environment `sampleEnv` with `XDG_DATA_HOME` set to the relative path
`share`. -/
def relativeEnv : Env :=
  { sampleEnv with getenv := fun n => if n = "XDG_DATA_HOME" then some "share" else none }

/-- The environment `sampleEnv` with `XDG_DATA_HOME` set to `/`. -/
def rootXdgEnv : Env :=
  { sampleEnv with getenv := fun n => if n = "XDG_DATA_HOME" then some "/" else none }

/-- The environment `sampleEnv` in which `getaddrinfo` gives one address, for
which `socket()` returns descriptor 4 and `bind()` fails. -/
def bindFailsEnv : Env :=
  { sampleEnv with
    getaddrinfo := fun _ _ => .ok [{ socket := some 4, bind := false, listen := true }] }

/-- The vhost invariant of `ge`: the list `hosts` holds exactly one vhost,
its domain is the wildcard, and its only location is the catch-all `*`
without FastCGI backend (`fcgi = -1`) and with `auto_index` on (`1`). -/
def vhostInvariant (hosts : List Vhost) : Prop :=
  ∃ host loc, hosts = [host] ∧ host.domain = "*" ∧ host.locations = [loc] ∧
    loc.match_ = "*" ∧ loc.fcgi = -1 ∧ loc.auto_index = 1

/-- What `main` sets up in `sampleEnv` for the host name `hostname`, without
`-d`, `-p` or a directory operand. -/
def sampleSetup (hostname : String) : Setup where
  hostname := hostname
  g := {
    port := 1965
    verbose := 1
    hosts := [{
      domain := "*"
      cert := "/home/op/.local/share/gmid/" ++ hostname ++ ".cert.pem"
      key := "/home/op/.local/share/gmid/" ++ hostname ++ ".key.pem"
      locations := [{
        match_ := "*"
        auto_index := 1
        fcgi := -1
        dir := "/var/gemini"
        dirfd := 3 }] }] }

/-! ## Path lemmas -/

theorem stripSlashes_le (p : List Char) (e : Nat) : stripSlashes p e ≤ e := by
  induction e with
  | zero => simp [stripSlashes]
  | succ e ih => unfold stripSlashes; split <;> omega

theorem skipName_le (p : List Char) (e : Nat) : skipName p e ≤ e := by
  induction e with
  | zero => simp [skipName]
  | succ e ih => unfold skipName; split <;> omega

theorem isAbsolute_mk_take (p : List Char) (k : Nat) :
    isAbsolute ⟨p.take (k + 1)⟩ ↔ isAbsolute ⟨p⟩ := by
  cases p <;> simp [isAbsolute]

theorem isAbsolute_iff (path : String) : isAbsolute path ↔ path.data[0]? = some '/' := by
  unfold isAbsolute
  cases path.data <;> simp

/-- The three shapes of a `dirname` result of OpenBSD: `"/"` (absolute path
without a directory part), `"."` (relative one), or a proper non-empty
prefix. -/
theorem dirname_bsd_cases (path : String) :
    (dirname_bsd path = "/" ∧ isAbsolute path) ∨
    (dirname_bsd path = "." ∧ ¬ isAbsolute path) ∨
    (∃ k, k + 1 < path.length ∧ dirname_bsd path = ⟨path.data.take (k + 1)⟩) := by
  unfold dirname_bsd
  simp only
  by_cases hp : path.data = []
  · right; left
    simp [hp, isAbsolute]
  · rw [if_neg hp]
    by_cases he : skipName path.data (stripSlashes path.data (path.data.length - 1)) = 0
    · rw [if_pos he]
      have h0 : path.data[0]? = path.data.head? := by
        cases path.data <;> simp
      by_cases ha : path.data[0]? = some '/'
      · left; rw [if_pos ha]; exact ⟨rfl, by rw [isAbsolute, ← h0]; exact ha⟩
      · right; left; rw [if_neg ha]; exact ⟨rfl, by rw [isAbsolute, ← h0]; exact ha⟩
    · right; right
      rw [if_neg he]
      refine ⟨_, ?_, rfl⟩
      have h1 := stripSlashes_le path.data (path.data.length - 1)
      have h2 := skipName_le path.data (stripSlashes path.data (path.data.length - 1))
      have h3 := stripSlashes_le path.data
        (skipName path.data (stripSlashes path.data (path.data.length - 1)) - 1)
      have h4 : 0 < path.data.length := List.length_pos.mpr hp
      show _ < path.data.length
      omega

theorem memrchr_some (p : List Char) :
    ∀ (n i : Nat), memrchr p n = some i →
      i < n ∧ p[i]? = some '/' ∧ ∀ j, i < j → j < n → p[j]? ≠ some '/' := by
  intro n
  induction n with
  | zero => intro i h; simp [memrchr] at h
  | succ n ih =>
    intro i h
    unfold memrchr at h
    by_cases hs : p[n]? = some '/'
    · simp only [if_pos hs, Option.some.injEq] at h
      subst h
      exact ⟨by omega, hs, fun j h1 h2 => by omega⟩
    · simp only [if_neg hs] at h
      obtain ⟨h1, h2, h3⟩ := ih i h
      refine ⟨by omega, h2, fun j hj1 hj2 => ?_⟩
      by_cases hjn : j = n
      · subst hjn; exact hs
      · exact h3 j hj1 (by omega)

theorem memrchr_none (p : List Char) :
    ∀ (n : Nat), memrchr p n = none → ∀ j, j < n → p[j]? ≠ some '/' := by
  intro n
  induction n with
  | zero => intro _ j hj; omega
  | succ n ih =>
    intro h j hj
    unfold memrchr at h
    by_cases hs : p[n]? = some '/'
    · simp [if_pos hs] at h
    · simp only [if_neg hs] at h
      by_cases hjn : j = n
      · subst hjn; exact hs
      · exact ih h j (by omega)

theorem slashRun_spec (p : List Char) :
    ∀ (r : Nat), slashRun p r ≤ r ∧
      (∀ j, slashRun p r ≤ j → j < r → p[j]? = some '/') ∧
      (slashRun p r ≠ 0 → p[slashRun p r - 1]? ≠ some '/') := by
  intro r
  induction r with
  | zero => simp [slashRun]
  | succ r ih =>
    unfold slashRun
    by_cases hs : p[r]? = some '/'
    · simp only [if_pos hs]
      obtain ⟨h1, h2, h3⟩ := ih
      refine ⟨by omega, fun j hj1 hj2 => ?_, h3⟩
      by_cases hjr : j = r
      · subst hjr; exact hs
      · exact h2 j hj1 (by omega)
    · simp only [if_neg hs]
      exact ⟨le_refl _, fun j h1 h2 => by omega, fun _ => by simpa using hs⟩

/-- The slash at which glibc cuts is followed by no slash; without one
the path does not start with a slash. -/
theorem last_slash_spec (p : List Char) :
    (last_slash p = none → p[0]? ≠ some '/') ∧
    (∀ ls, last_slash p = some ls → p[ls]? = some '/' ∧ p[ls + 1]? ≠ some '/') := by
  unfold last_slash
  cases hm : memrchr p p.length with
  | none =>
    refine ⟨fun _ => ?_, fun ls h => by simp at h⟩
    cases p with
    | nil => simp
    | cons c rest => exact memrchr_none _ _ hm 0 (by simp)
  | some ls0 =>
    obtain ⟨h1, h2, h3⟩ := memrchr_some p _ _ hm
    have hnext : p[ls0 + 1]? ≠ some '/' := by
      by_cases hlt : ls0 + 1 < p.length
      · exact h3 _ (by omega) hlt
      · rw [List.getElem?_eq_none (by omega)]; simp
    simp only
    by_cases hc : ls0 ≠ 0 ∧ ls0 + 1 = p.length
    · rw [if_pos hc]
      by_cases hr : slashRun p ls0 ≠ 0
      · rw [if_pos hr]
        obtain ⟨r1, r2, r3⟩ := slashRun_spec p ls0
        have r3 := r3 hr
        cases hm2 : memrchr p (slashRun p ls0) with
        | none =>
          refine ⟨fun _ => memrchr_none _ _ hm2 0 (by omega), fun ls h => by simp at h⟩
        | some ls =>
          obtain ⟨g1, g2, g3⟩ := memrchr_some p _ _ hm2
          refine ⟨fun h => by simp at h, fun ls1 h => ?_⟩
          simp only [Option.some.injEq] at h
          subst h
          refine ⟨g2, ?_⟩
          by_cases hlt : ls + 1 < slashRun p ls0
          · exact g3 _ (by omega) hlt
          · have e : ls = slashRun p ls0 - 1 := by omega
            rw [e] at g2
            exact absurd g2 r3
      · rw [if_neg hr]
        exact ⟨fun h => by simp at h, fun ls h => by
          simp only [Option.some.injEq] at h; subst h; exact ⟨h2, hnext⟩⟩
    · rw [if_neg hc]
      exact ⟨fun h => by simp at h, fun ls h => by
        simp only [Option.some.injEq] at h; subst h; exact ⟨h2, hnext⟩⟩

/-- The four shapes of a `dirname` result of glibc: `"."` (relative path
without a directory part), a proper non-empty prefix that does not end in a
slash, `"/"`, or `"//"` for the paths that begin with exactly two slashes
and have no further directory part. -/
theorem dirname_glibc_cases (q : String) :
    (dirname_glibc q = "." ∧ ¬ isAbsolute q) ∨
    (∃ k, k + 1 < q.length ∧ q.data[k]? ≠ some '/' ∧
      dirname_glibc q = ⟨q.data.take (k + 1)⟩) ∨
    (dirname_glibc q = "/" ∧ isAbsolute q ∧ ¬ doubleSlash q) ∨
    (dirname_glibc q = "//" ∧ doubleSlash q) := by
  obtain ⟨hnone, hsome⟩ := last_slash_spec q.data
  unfold dirname_glibc
  simp only
  cases hl : last_slash q.data with
  | none =>
    left
    exact ⟨rfl, fun ha => hnone hl ((isAbsolute_iff q).mp ha)⟩
  | some ls =>
    obtain ⟨g1, g2⟩ := hsome ls hl
    obtain ⟨r1, r2, r3⟩ := slashRun_spec q.data ls
    have hlen : ls < q.data.length := by
      by_contra hh
      rw [List.getElem?_eq_none (by omega)] at g1
      simp at g1
    simp only
    by_cases hr : slashRun q.data ls = 0
    · rw [if_pos hr]
      rw [hr] at r2
      have hall : ∀ j, j ≤ ls → q.data[j]? = some '/' := by
        intro j hj
        by_cases e : j = ls
        · subst e; exact g1
        · exact r2 j (by omega) (by omega)
      have h0 := hall 0 (by omega)
      right; right
      by_cases h1 : ls = 1
      · right
        rw [if_pos h1]
        subst h1
        have h1' := hall 1 (le_refl _)
        refine ⟨?_, h0, h1', g2⟩
        obtain ⟨data⟩ := q
        match data, h0, h1' with
        | a :: b :: rest, h0, h1' =>
          simp at h0 h1'
          subst h0; subst h1'
          rfl
      · left
        rw [if_neg h1]
        refine ⟨?_, (isAbsolute_iff q).mpr h0, ?_⟩
        · obtain ⟨data⟩ := q
          match data, h0 with
          | a :: rest, h0 =>
            simp at h0
            subst h0
            rfl
        · rintro ⟨_, d1, d2⟩
          by_cases hz : ls = 0
          · subst hz; exact g2 d1
          · exact d2 (hall 2 (by omega))
    · rw [if_neg hr]
      right; left
      obtain ⟨k, hk⟩ : ∃ k, slashRun q.data ls = k + 1 := ⟨slashRun q.data ls - 1, by omega⟩
      refine ⟨k, ?_, ?_, by rw [hk]⟩
      · show k + 1 < q.data.length
        omega
      · have := r3 hr
        rw [hk] at this
        simpa using this

theorem doubleSlash_take (p : List Char) (k : Nat) (hk : 3 ≤ k) :
    doubleSlash ⟨p.take k⟩ ↔ doubleSlash ⟨p⟩ := by
  unfold doubleSlash
  simp only
  rw [List.getElem?_take_of_lt (show 0 < k by omega),
    List.getElem?_take_of_lt (show 1 < k by omega),
    List.getElem?_take_of_lt (show 2 < k by omega)]

theorem doubleSlash_take_succ (p : List Char) (k : Nat) (hk : p[k]? ≠ some '/') :
    doubleSlash ⟨p.take (k + 1)⟩ ↔ doubleSlash ⟨p⟩ := by
  by_cases h : 2 ≤ k
  · exact doubleSlash_take p _ (by omega)
  · unfold doubleSlash
    simp only
    have hk' : (p.take (k + 1))[k]? = p[k]? := List.getElem?_take_of_lt (by omega)
    have hc : k = 0 ∨ k = 1 := by omega
    rcases hc with e | e <;> subst e
    · constructor
      · rintro ⟨a, _, _⟩; rw [hk'] at a; exact absurd a hk
      · rintro ⟨a, _, _⟩; exact absurd a hk
    · constructor
      · rintro ⟨_, a, _⟩; rw [hk'] at a; exact absurd a hk
      · rintro ⟨_, a, _⟩; exact absurd a hk

theorem doubleSlash_absolute (path : String) (h : doubleSlash path) : isAbsolute path :=
  (isAbsolute_iff path).mpr h.1

theorem length_mk_take_lt (p : List Char) (k n : Nat) (hk : k + 1 < n) :
    (String.mk (p.take (k + 1))).length < n := by
  show (p.take (k + 1)).length < n
  rw [List.length_take]
  exact lt_of_le_of_lt (Nat.min_le_left _ _) hk

/-- Whatever the C library, the `dirname` of a path that is not absolute is
not absolute, and is `"."` or shorter than the path. -/
theorem dirname_rel (c : Libc) (path : String) (h : ¬ isAbsolute path) :
    ¬ isAbsolute (dirname c path) ∧
      (dirname c path = "." ∨ (dirname c path).length < path.length) := by
  cases c with
  | bsd =>
    show ¬ isAbsolute (dirname_bsd path) ∧ _
    rcases dirname_bsd_cases path with ⟨_, ha⟩ | ⟨e, _⟩ | ⟨k, hk, e⟩
    · exact absurd ha h
    · exact ⟨by rw [e]; decide, Or.inl e⟩
    · refine ⟨by rw [e]; exact fun hh => h ((isAbsolute_mk_take _ _).mp hh), Or.inr ?_⟩
      show (dirname_bsd path).length < _
      rw [e]; exact length_mk_take_lt _ _ _ hk
  | glibc =>
    show ¬ isAbsolute (dirname_glibc path) ∧ _
    rcases dirname_glibc_cases path with ⟨e, _⟩ | ⟨k, hk, _, e⟩ | ⟨_, ha, _⟩ | ⟨_, hd⟩
    · exact ⟨by rw [e]; decide, Or.inl e⟩
    · refine ⟨by rw [e]; exact fun hh => h ((isAbsolute_mk_take _ _).mp hh), Or.inr ?_⟩
      show (dirname_glibc path).length < _
      rw [e]; exact length_mk_take_lt _ _ _ hk
    · exact absurd ha h
    · exact absurd (doubleSlash_absolute path hd) h

/-- The `dirname` of an absolute path (one that does not begin with exactly
two slashes, when the C library is glibc) is again such a path, and is
`"/"` or shorter than the path. -/
theorem dirname_good (c : Libc) (path : String) (ha : isAbsolute path)
    (hd : c = .glibc → ¬ doubleSlash path) :
    isAbsolute (dirname c path) ∧ (c = .glibc → ¬ doubleSlash (dirname c path)) ∧
      (dirname c path = "/" ∨ (dirname c path).length < path.length) := by
  cases c with
  | bsd =>
    show isAbsolute (dirname_bsd path) ∧ _ ∧ (dirname_bsd path = "/" ∨
      (dirname_bsd path).length < _)
    rcases dirname_bsd_cases path with ⟨e, _⟩ | ⟨_, hn⟩ | ⟨k, hk, e⟩
    · exact ⟨by rw [e]; decide, fun hc => by simp at hc, Or.inl e⟩
    · exact absurd ha hn
    · refine ⟨by rw [e]; exact (isAbsolute_mk_take _ _).mpr ha, fun hc => by simp at hc,
        Or.inr ?_⟩
      rw [e]; exact length_mk_take_lt _ _ _ hk
  | glibc =>
    have hd := hd rfl
    show isAbsolute (dirname_glibc path) ∧ (_ → ¬ doubleSlash (dirname_glibc path)) ∧
      (dirname_glibc path = "/" ∨ (dirname_glibc path).length < _)
    rcases dirname_glibc_cases path with ⟨_, hn⟩ | ⟨k, hk, hne, e⟩ | ⟨e, _, _⟩ | ⟨_, h2⟩
    · exact absurd ha hn
    · refine ⟨by rw [e]; exact (isAbsolute_mk_take _ _).mpr ha, fun _ => ?_, Or.inr ?_⟩
      · rw [e]; exact fun hh => hd ((doubleSlash_take_succ _ _ hne).mp hh)
      · rw [e]; exact length_mk_take_lt _ _ _ hk
    · exact ⟨by rw [e]; decide, fun _ => by rw [e]; decide, Or.inl e⟩
    · exact absurd h2 hd

/-- With glibc the `dirname` of a path that begins with exactly two slashes
begins with exactly two slashes, and is `"//"` or shorter than the path. -/
theorem dirname_glibc_doubleSlash (path : String) (hd : doubleSlash path) :
    doubleSlash (dirname_glibc path) ∧
      (dirname_glibc path = "//" ∨ (dirname_glibc path).length < path.length) := by
  rcases dirname_glibc_cases path with ⟨_, hn⟩ | ⟨k, hk, hne, e⟩ | ⟨_, _, hn⟩ | ⟨e, _⟩
  · exact absurd (doubleSlash_absolute path hd) hn
  · refine ⟨by rw [e]; exact (doubleSlash_take_succ _ _ hne).mpr hd, Or.inr ?_⟩
    rw [e]; exact length_mk_take_lt _ _ _ hk
  · exact absurd hd hn
  · exact ⟨by rw [e]; decide, Or.inl e⟩

/-- Whatever the C library, a `dirname` result is `"/"`, `"."`, shorter than
the path, or, with glibc on a path beginning with exactly two slashes,
`"//"`. -/
theorem dirname_shape (c : Libc) (path : String) :
    dirname c path = "/" ∨ dirname c path = "." ∨
      (dirname c path).length < path.length ∨
      (c = .glibc ∧ dirname c path = "//" ∧ doubleSlash path) := by
  cases c with
  | bsd =>
    show dirname_bsd path = "/" ∨ dirname_bsd path = "." ∨
      (dirname_bsd path).length < _ ∨ _
    rcases dirname_bsd_cases path with ⟨e, _⟩ | ⟨e, _⟩ | ⟨k, hk, e⟩
    · exact Or.inl e
    · exact Or.inr (Or.inl e)
    · right; right; left; rw [e]; exact length_mk_take_lt _ _ _ hk
  | glibc =>
    show dirname_glibc path = "/" ∨ dirname_glibc path = "." ∨
      (dirname_glibc path).length < _ ∨ (_ ∧ dirname_glibc path = "//" ∧ _)
    rcases dirname_glibc_cases path with ⟨e, _⟩ | ⟨k, hk, _, e⟩ | ⟨e, _, _⟩ | ⟨e, h2⟩
    · exact Or.inr (Or.inl e)
    · right; right; left; rw [e]; exact length_mk_take_lt _ _ _ hk
    · exact Or.inl e
    · exact Or.inr (Or.inr (Or.inr ⟨rfl, e, h2⟩))

theorem strlcpy_buf (L : Limits) (path : String) :
    strlcpy "" path (L.PATH_MAX + 1) = ⟨path.data.take L.PATH_MAX⟩ := by
  simp [strlcpy]

theorem length_mk_take_le (p : List Char) (n : Nat) :
    (String.mk (p.take n)).length ≤ (String.mk p).length := by
  show (p.take n).length ≤ p.length
  rw [List.length_take]; exact Nat.min_le_right _ _

theorem pdirname_rel (L : Limits) (path : String) (h : ¬ isAbsolute path) :
    ¬ isAbsolute (pdirname L path) ∧
      (pdirname L path = "." ∨ (pdirname L path).length < path.length) := by
  unfold pdirname
  rw [strlcpy_buf]
  have hq : ¬ isAbsolute ⟨path.data.take L.PATH_MAX⟩ := by
    cases hn : L.PATH_MAX with
    | zero => simp [isAbsolute]
    | succ n => exact fun hh => h ((isAbsolute_mk_take _ _).mp hh)
  obtain ⟨h1, h2⟩ := dirname_rel L.libc _ hq
  exact ⟨h1, h2.imp id fun h => lt_of_lt_of_le h (length_mk_take_le path.data _)⟩

/-- One step of the chain from a path for which the recursion ends: the
next path is of the same kind, and is `"/"` or shorter. -/
theorem pdirname_good (L : Limits) (hL : 2 < L.PATH_MAX) (path : String)
    (h : reachesRoot L path) :
    reachesRoot L (pdirname L path) ∧
      (pdirname L path = "/" ∨ (pdirname L path).length < path.length) := by
  unfold pdirname
  rw [strlcpy_buf]
  obtain ⟨ha, hd⟩ := h
  have hq : isAbsolute ⟨path.data.take L.PATH_MAX⟩ := by
    obtain ⟨n, hn⟩ : ∃ n, L.PATH_MAX = n + 1 := ⟨L.PATH_MAX - 1, by omega⟩
    rw [hn]; exact (isAbsolute_mk_take _ _).mpr ha
  have hqd : L.libc = .glibc → ¬ doubleSlash ⟨path.data.take L.PATH_MAX⟩ :=
    fun hg hh => hd hg ((doubleSlash_take _ _ (by omega)).mp hh)
  obtain ⟨h1, h2, h3⟩ := dirname_good L.libc _ hq hqd
  exact ⟨⟨h1, h2⟩, h3.imp id fun h => lt_of_lt_of_le h (length_mk_take_le path.data _)⟩

/-- One step of the chain, with glibc, from a path that begins with exactly
two slashes: the next path begins with exactly two slashes, and is `"//"`
or shorter. -/
theorem pdirname_doubleSlash (L : Limits) (hL : 2 < L.PATH_MAX) (hg : L.libc = .glibc)
    (path : String) (h : doubleSlash path) :
    doubleSlash (pdirname L path) ∧
      (pdirname L path = "//" ∨ (pdirname L path).length < path.length) := by
  unfold pdirname
  rw [strlcpy_buf, hg]
  have hq : doubleSlash ⟨path.data.take L.PATH_MAX⟩ :=
    (doubleSlash_take _ _ (by omega)).mpr h
  obtain ⟨h1, h2⟩ := dirname_glibc_doubleSlash _ hq
  exact ⟨h1, h2.imp id fun h => lt_of_lt_of_le h (length_mk_take_le path.data _)⟩

theorem pdirname_dot (L : Limits) : pdirname L "." = "." := by
  unfold pdirname
  rw [strlcpy_buf]
  have e : ∀ n, (".": String).data.take (n + 1) = ['.'] := by
    intro n
    show List.take (n + 1) ['.'] = ['.']
    simp
  cases L.PATH_MAX with
  | zero => cases L.libc <;> rfl
  | succ n => rw [e]; cases L.libc <;> rfl

theorem pdirname_empty (L : Limits) : pdirname L "" = "." := by
  unfold pdirname
  rw [strlcpy_buf]
  have e : ("" : String).data.take L.PATH_MAX = [] := by
    show List.take _ [] = []
    simp
  rw [e]; cases L.libc <;> rfl

theorem doubleSlash_length_two (q : List Char) (h : doubleSlash ⟨q⟩) (hl : q.length ≤ 2) :
    q = ['/', '/'] := by
  obtain ⟨h0, h1, _⟩ := h
  match q, h0, h1, hl with
  | [a, b], h0, h1, _ =>
    simp at h0 h1
    subst h0; subst h1; rfl
  | [], h0, _, _ => simp at h0
  | [a], _, h1, _ => simp at h1
  | a :: b :: c :: rest, _, _, hl => simp at hl

/-- Whatever the system, the next path of the chain is `"/"`, or shorter, or
a path other than `"/"` that is its own successor. -/
theorem pdirname_shape (L : Limits) (path : String) :
    pdirname L path = "/" ∨ (pdirname L path).length < path.length ∨
      (pdirname L (pdirname L path) = pdirname L path ∧ pdirname L path ≠ "/") := by
  have hle := length_mk_take_le path.data L.PATH_MAX
  have hs := dirname_shape L.libc ⟨path.data.take L.PATH_MAX⟩
  have e : pdirname L path = dirname L.libc ⟨path.data.take L.PATH_MAX⟩ := by
    unfold pdirname; rw [strlcpy_buf]
  rcases hs with h | h | h | ⟨hg, h, hd⟩
  · exact Or.inl (e.trans h)
  · right; right
    rw [e, h]
    exact ⟨pdirname_dot L, by decide⟩
  · right; left
    rw [e]; exact lt_of_lt_of_le h hle
  · by_cases hlen : 2 < path.length
    · right; left
      rw [e, h]; exact hlen
    · right; right
      have hq2 : (path.data.take L.PATH_MAX).length ≤ 2 := by
        have : (path.data.take L.PATH_MAX).length ≤ path.data.length := hle
        have : path.data.length ≤ 2 := by
          have : path.length = path.data.length := rfl
          omega
        omega
      have hq := doubleSlash_length_two _ hd hq2
      have e2 : pdirname L "//" = "//" := by
        unfold pdirname
        rw [strlcpy_buf]
        have ht : ("//" : String).data.take L.PATH_MAX = ['/', '/'] := by
          have h2 : 2 ≤ L.PATH_MAX := by
            by_contra hc
            have : (path.data.take L.PATH_MAX).length ≤ L.PATH_MAX := by
              rw [List.length_take]; exact Nat.min_le_left _ _
            rw [hq] at this
            simp at this
            omega
          exact List.take_of_length_le (by simpa using h2)
        rw [ht, hg]; rfl
      rw [e, h]
      exact ⟨e2, by decide⟩

theorem root_absolute : isAbsolute "/" := by decide

theorem absolute_length (path : String) (h : isAbsolute path) (hne : path ≠ "/") :
    1 < path.length := by
  obtain ⟨data⟩ := path
  cases data with
  | nil => simp [isAbsolute] at h
  | cons c rest =>
    cases rest with
    | nil =>
      simp [isAbsolute] at h
      subst h
      exact absurd rfl hne
    | cons d rest => simp [String.length]

/-- From a path for which the recursion ends the chain of `pdirname` results
shortens strictly until it is `"/"`. -/
theorem chain_good (L : Limits) (hL : 2 < L.PATH_MAX) :
    ∀ (n : Nat) (path : String), path.length = n → reachesRoot L path →
      ∃ k, (pdirname L)^[k] path = "/" ∧
        ∀ i < k, ((pdirname L)^[i + 1] path).length < ((pdirname L)^[i] path).length := by
  intro n
  induction n using Nat.strong_induction_on with
  | _ n ih =>
    intro path hn ha
    by_cases hr : path = "/"
    · exact ⟨0, by simpa using hr, by intro i hi; omega⟩
    · obtain ⟨hqa, hq⟩ := pdirname_good L hL path ha
      have hlt : (pdirname L path).length < path.length := by
        rcases hq with e | h
        · rw [e]; exact absolute_length path ha.1 hr
        · exact h
      obtain ⟨k, hk, hdec⟩ := ih _ (hn ▸ hlt) (pdirname L path) rfl hqa
      refine ⟨k + 1, by simpa [Function.iterate_succ_apply] using hk, ?_⟩
      intro i hi
      cases i with
      | zero => simpa using hlt
      | succ j =>
        have := hdec j (by omega)
        simpa [Function.iterate_succ_apply] using this

/-- From a path that is not absolute no `pdirname` result is absolute. -/
theorem chain_relative (L : Limits) :
    ∀ (k : Nat) (path : String), ¬ isAbsolute path → ¬ isAbsolute ((pdirname L)^[k] path) := by
  intro k
  induction k with
  | zero => intro path h; simpa using h
  | succ k ih =>
    intro path h
    rw [Function.iterate_succ_apply]
    exact ih _ (pdirname_rel L path h).1

/-- From a path that is not absolute the chain of `pdirname` results
reaches `"."`. -/
theorem chain_reaches_dot (L : Limits) :
    ∀ (n : Nat) (path : String), path.length = n → ¬ isAbsolute path →
      ∃ k, (pdirname L)^[k] path = "." := by
  intro n
  induction n using Nat.strong_induction_on with
  | _ n ih =>
    intro path hn ha
    obtain ⟨hqa, hq⟩ := pdirname_rel L path ha
    rcases hq with e | h
    · exact ⟨1, by simpa using e⟩
    · obtain ⟨k, hk⟩ := ih _ (hn ▸ h) (pdirname L path) rfl hqa
      exact ⟨k + 1, by simpa [Function.iterate_succ_apply] using hk⟩

/-- With glibc, from a path that begins with exactly two slashes every
`pdirname` result begins with exactly two slashes. -/
theorem chain_doubleSlash (L : Limits) (hL : 2 < L.PATH_MAX) (hg : L.libc = .glibc) :
    ∀ (k : Nat) (path : String), doubleSlash path → doubleSlash ((pdirname L)^[k] path) := by
  intro k
  induction k with
  | zero => intro path h; simpa using h
  | succ k ih =>
    intro path h
    rw [Function.iterate_succ_apply]
    exact ih _ (pdirname_doubleSlash L hL hg path h).1

/-- With glibc, from a path that begins with exactly two slashes the chain of
`pdirname` results reaches `"//"`. -/
theorem chain_reaches_doubleSlash (L : Limits) (hL : 2 < L.PATH_MAX) (hg : L.libc = .glibc) :
    ∀ (n : Nat) (path : String), path.length = n → doubleSlash path →
      ∃ k, (pdirname L)^[k] path = "//" := by
  intro n
  induction n using Nat.strong_induction_on with
  | _ n ih =>
    intro path hn ha
    obtain ⟨hqa, hq⟩ := pdirname_doubleSlash L hL hg path ha
    rcases hq with e | h
    · exact ⟨1, by simpa using e⟩
    · obtain ⟨k, hk⟩ := ih _ (hn ▸ h) (pdirname L path) rfl hqa
      exact ⟨k + 1, by simpa [Function.iterate_succ_apply] using hk⟩

theorem pdirname_doubleSlash_fixed (L : Limits) (hL : 2 < L.PATH_MAX) (hg : L.libc = .glibc) :
    pdirname L "//" = "//" := by
  unfold pdirname
  rw [strlcpy_buf, hg]
  have ht : ("//" : String).data.take L.PATH_MAX = ['/', '/'] :=
    List.take_of_length_le (by show 2 ≤ _; omega)
  rw [ht]; rfl

/-! ## mkdirs -/

theorem mkdirs_relative (L : Limits) (env : Env) :
    ∀ (fuel : Nat) (path : String), ¬ isAbsolute path → mkdirs L env fuel path = none := by
  intro fuel
  induction fuel with
  | zero => intro path _; rfl
  | succ fuel ih =>
    intro path h
    have hq := (pdirname_rel L path h).1
    have hne : pdirname L path ≠ "/" := fun e => hq (e ▸ root_absolute)
    simp only [mkdirs, if_neg hne, ih _ hq]

/-- With glibc, `mkdirs` does not return on a path that begins with exactly
two slashes, whatever the depth allowed. -/
theorem mkdirs_doubleSlash (L : Limits) (hL : 2 < L.PATH_MAX) (hg : L.libc = .glibc)
    (env : Env) :
    ∀ (fuel : Nat) (path : String), doubleSlash path → mkdirs L env fuel path = none := by
  intro fuel
  induction fuel with
  | zero => intro path _; rfl
  | succ fuel ih =>
    intro path h
    have hq := (pdirname_doubleSlash L hL hg path h).1
    have hne : pdirname L path ≠ "/" := fun e => by
      rw [e] at hq; exact absurd hq (by decide)
    simp only [mkdirs, if_neg hne, ih _ hq]

theorem mkdirs_fixed (L : Limits) (env : Env) (d : String) (hf : pdirname L d = d)
    (hne : d ≠ "/") : ∀ (fuel : Nat), mkdirs L env fuel d = none := by
  intro fuel
  induction fuel with
  | zero => rfl
  | succ fuel ih =>
    rw [mkdirs]
    simp only [hf, if_neg hne, ih]

theorem mkdirs_succ (L : Limits) (env : Env) :
    ∀ (fuel : Nat) (path : String) (r : Run Unit),
      mkdirs L env fuel path = some r → mkdirs L env (fuel + 1) path = some r := by
  intro fuel
  induction fuel with
  | zero => intro path r h; simp [mkdirs] at h
  | succ fuel ih =>
    intro path r h
    rw [mkdirs] at h ⊢
    by_cases hd : pdirname L path = "/"
    · simpa [hd] using h
    · simp only [if_neg hd] at h ⊢
      cases hm : mkdirs L env fuel (pdirname L path) with
      | none => simp [hm] at h
      | some r1 =>
        rw [ih _ _ hm]
        simpa [hm] using h

theorem mkdirs_mono (L : Limits) (env : Env) (path : String) (r : Run Unit)
    (f1 f2 : Nat) (hle : f1 ≤ f2) (h : mkdirs L env f1 path = some r) :
    mkdirs L env f2 path = some r := by
  induction hle with
  | refl => exact h
  | step _ ih => exact mkdirs_succ L env _ path r ih

/-- A recursion depth of `path.length` is enough for `mkdirs` whenever some
depth is, on every system. -/
theorem mkdirs_fuel_enough (L : Limits) (env : Env) :
    ∀ (fuel : Nat) (path : String) (r : Run Unit), mkdirs L env fuel path = some r →
      mkdirs L env path.length path = some r := by
  intro fuel
  induction fuel with
  | zero => intro path r h; simp [mkdirs] at h
  | succ fuel ih =>
    intro path r h
    have hpos : 0 < path.length := by
      by_contra hc
      have he : path = "" := by
        obtain ⟨data⟩ := path
        cases data with
        | nil => rfl
        | cons c rest => simp [String.length] at hc
      subst he
      rw [mkdirs, pdirname_empty] at h
      simp [mkdirs_relative L env fuel "." (by decide)] at h
    obtain ⟨m, hm⟩ : ∃ m, path.length = m + 1 := ⟨path.length - 1, by omega⟩
    rw [hm]
    rw [mkdirs] at h ⊢
    by_cases hd : pdirname L path = "/"
    · simpa [hd] using h
    · simp only [if_neg hd] at h ⊢
      cases hr : mkdirs L env fuel (pdirname L path) with
      | none => simp [hr] at h
      | some r1 =>
        have h1 := ih _ _ hr
        rcases pdirname_shape L path with e | hlt | ⟨hf, hne⟩
        · exact absurd e hd
        · rw [mkdirs_mono L env _ r1 _ m (by omega) h1]
          simpa [hr] using h
        · rw [mkdirs_fixed L env _ hf hne fuel] at hr
          simp at hr

/-- On a path for which the recursion ends `mkdirs` returns. -/
theorem mkdirs_good (L : Limits) (hL : 2 < L.PATH_MAX) (env : Env) :
    ∀ (n : Nat) (path : String), path.length = n → reachesRoot L path →
      ∃ r, mkdirs L env n path = some r := by
  intro n
  induction n using Nat.strong_induction_on with
  | _ n ih =>
    intro path hn ha
    obtain ⟨hqa, hq⟩ := pdirname_good L hL path ha
    cases n with
    | zero =>
      obtain ⟨data⟩ := path
      have := ha.1
      cases data <;> simp [isAbsolute, String.length] at this hn
    | succ m =>
      rw [mkdirs]
      by_cases hd : pdirname L path = "/"
      · exact ⟨pure (), by rw [if_pos hd]⟩
      · simp only [if_neg hd]
        have hlt : (pdirname L path).length < m + 1 := by
          rcases hq with e | h
          · exact absurd e hd
          · omega
        obtain ⟨r1, hr1⟩ := ih _ hlt (pdirname L path) rfl hqa
        rw [mkdirs_mono L env _ r1 _ m (by omega) hr1]
        exact ⟨_, rfl⟩

theorem mkdirs_run_eq (L : Limits) (env : Env) (fuel : Nat) (path : String)
    (r : Run Unit) (h : mkdirs L env fuel path = some r) : mkdirs_run L env path = r := by
  unfold mkdirs_run
  rw [mkdirs_fuel_enough L env fuel path r h]

theorem mkdirs_run_relative (L : Limits) (env : Env) (path : String)
    (h : ¬ isAbsolute path) : mkdirs_run L env path = Run.stop .diverges := by
  unfold mkdirs_run
  rw [mkdirs_relative L env _ path h]

theorem mkdirs_run_doubleSlash (L : Limits) (hL : 2 < L.PATH_MAX) (hg : L.libc = .glibc)
    (env : Env) (path : String) (h : doubleSlash path) :
    mkdirs_run L env path = Run.stop .diverges := by
  unfold mkdirs_run
  rw [mkdirs_doubleSlash L hL hg env _ path h]

/-! ## Runs -/

@[simp] theorem Run.bind_eq {α β : Type} (x : Run α) (f : α → Run β) :
    x >>= f = x.andThen f := rfl

@[simp] theorem Run.pure_eq {α : Type} (a : α) : (pure a : Run α) = Run.ret a := rfl

@[simp] theorem Run.stop_andThen {α β : Type} (o : Outcome) (f : α → Run β) :
    (Run.stop o).andThen f = Run.stop o := rfl

@[simp] theorem Run.ret_andThen {α β : Type} (a : α) (f : α → Run β) :
    (Run.ret a).andThen f = f a := by
  simp [Run.andThen, Run.ret]

@[simp] theorem Run.fatal_andThen {α β : Type} (msg : String) (f : α → Run β) :
    (fatal msg : Run α).andThen f = fatal msg := rfl

@[simp] theorem Run.usage_andThen {α β : Type} (f : α → Run β) :
    (usage : Run α).andThen f = usage := rfl

theorem Run.andThen_res_ok {α β : Type} (x : Run α) (f : α → Run β) (b : β)
    (h : (x.andThen f).res = .ok b) : ∃ a, x.res = .ok a ∧ (f a).res = .ok b := by
  unfold Run.andThen at h
  cases hx : x.res with
  | error o => simp [hx] at h
  | ok a => exact ⟨a, rfl, by simpa [hx] using h⟩

theorem Run.andThen_of_ok {α β : Type} (x : Run α) (f : α → Run β) (a : α)
    (h : x.res = .ok a) : x.andThen f = ⟨x.trace ++ (f a).trace, (f a).res⟩ := by
  simp [Run.andThen, h]

theorem Run.andThen_of_error {α β : Type} (x : Run α) (f : α → Run β) (o : Outcome)
    (h : x.res = .error o) : x.andThen f = ⟨x.trace, .error o⟩ := by
  simp [Run.andThen, h]

/-- A call of `mkdirs` that comes back either went on or ended in `fatal`. -/
theorem mkdirs_res (L : Limits) (env : Env) :
    ∀ (fuel : Nat) (path : String) (r : Run Unit), mkdirs L env fuel path = some r →
      r.res = .ok () ∨ ∃ msg, r.res = .error (.fatal msg) := by
  intro fuel
  induction fuel with
  | zero => intro path r h; simp [mkdirs] at h
  | succ fuel ih =>
    intro path r h
    rw [mkdirs] at h
    by_cases hd : pdirname L path = "/"
    · simp only [if_pos hd, Option.some.injEq] at h
      subst h; left; rfl
    · simp only [if_neg hd] at h
      cases hm : mkdirs L env fuel (pdirname L path) with
      | none => simp [hm] at h
      | some r1 =>
        simp only [hm, Option.some.injEq] at h
        subst h
        rcases ih _ _ hm with h1 | ⟨msg, h1⟩
        · rw [Run.andThen_of_ok _ _ _ h1]
          simp only [mkdir_or_fatal, Run.bind_eq, Run.pure_eq]
          cases env.mkdir path <;> simp [Run.andThen, Run.emit, Run.ret, fatal, Run.stop]
        · right; exact ⟨msg, by rw [Run.andThen_of_error _ _ _ h1]⟩

/-- When `mkdirs(path)` comes back and went on, then either the base case
applied at once (`dirname(path)` is `"/"`, nothing is made) or its last
action was `mkdir(path)`. -/
theorem mkdirs_last (L : Limits) (env : Env) (fuel : Nat) (path : String) (r : Run Unit)
    (h : mkdirs L env fuel path = some r) (hok : r.res = .ok ())
    (hd : pdirname L path ≠ "/") :
    r.trace.getLast? = some (.mkdir path (env.mkdir path)) := by
  cases fuel with
  | zero => simp [mkdirs] at h
  | succ fuel =>
    rw [mkdirs] at h
    simp only [if_neg hd] at h
    cases hm : mkdirs L env fuel (pdirname L path) with
    | none => simp [hm] at h
    | some r1 =>
      simp only [hm, Option.some.injEq] at h
      subst h
      obtain ⟨u, h1, _⟩ := Run.andThen_res_ok _ _ _ hok
      rw [Run.andThen_of_ok _ _ _ h1]
      simp only [mkdir_or_fatal, Run.bind_eq, Run.pure_eq]
      cases env.mkdir path <;> simp [Run.andThen, Run.emit, Run.ret, fatal, Run.stop]

theorem mkdirs_run_res (L : Limits) (env : Env) (t : String) :
    (mkdirs_run L env t).res = .ok () ∨ (∃ msg, (mkdirs_run L env t).res = .error (.fatal msg)) ∨
      (mkdirs_run L env t).res = .error .diverges := by
  unfold mkdirs_run
  cases hm : mkdirs L env t.length t with
  | none => right; right; rfl
  | some r =>
    rcases mkdirs_res L env _ _ _ hm with h | h
    · left; exact h
    · right; left; exact h

theorem mkdirs_run_last (L : Limits) (env : Env) (t : String)
    (hok : (mkdirs_run L env t).res = .ok ()) (hd : pdirname L t ≠ "/") :
    (mkdirs_run L env t).trace.getLast? = some (.mkdir t (env.mkdir t)) := by
  unfold mkdirs_run at hok ⊢
  cases hm : mkdirs L env t.length t with
  | none => simp [hm, Run.stop] at hok
  | some r =>
    simp only [hm] at hok ⊢
    exact mkdirs_last L env _ t r hm hok hd

theorem relative_append (x s : String) (hx : x ≠ "") (h : ¬ isAbsolute x) :
    ¬ isAbsolute (x ++ s) := by
  obtain ⟨data⟩ := x
  cases data with
  | nil => exact absurd rfl hx
  | cons c rest =>
    intro hh
    apply h
    simpa [isAbsolute, String.data_append] using hh

/-- When `mkdirs` comes back and went on, every `mkdir` call it made
returned 0 or failed with `EEXIST`. -/
theorem mkdirs_made (L : Limits) (env : Env) :
    ∀ (fuel : Nat) (path : String) (r : Run Unit), mkdirs L env fuel path = some r →
      r.res = .ok () →
      ∀ e ∈ r.trace, ∃ p, e = .mkdir p (env.mkdir p) ∧
        (env.mkdir p = .ok ∨ env.mkdir p = .eexist) := by
  intro fuel
  induction fuel with
  | zero => intro path r h; simp [mkdirs] at h
  | succ fuel ih =>
    intro path r h hok
    rw [mkdirs] at h
    by_cases hd : pdirname L path = "/"
    · simp only [if_pos hd, Option.some.injEq] at h
      subst h; intro e he; simp [Run.ret] at he
    · simp only [if_neg hd] at h
      cases hm : mkdirs L env fuel (pdirname L path) with
      | none => simp [hm] at h
      | some r1 =>
        simp only [hm, Option.some.injEq] at h
        subst h
        obtain ⟨u, h1, h2⟩ := Run.andThen_res_ok _ _ _ hok
        rw [Run.andThen_of_ok _ _ _ h1]
        intro e he
        rcases List.mem_append.mp he with h3 | h3
        · exact ih _ _ hm h1 e h3
        · simp only [mkdir_or_fatal, Run.bind_eq, Run.pure_eq] at h2 h3
          cases hk : env.mkdir path with
          | ok =>
            simp [hk, Run.andThen, Run.emit, Run.ret] at h3
            exact ⟨path, by rw [h3, hk], Or.inl hk⟩
          | eexist =>
            simp [hk, Run.andThen, Run.emit, Run.ret] at h3
            exact ⟨path, by rw [h3, hk], Or.inr hk⟩
          | failed msg => simp [hk, Run.andThen, Run.emit, fatal, Run.stop] at h2

theorem mkdirs_run_made (L : Limits) (env : Env) (t : String)
    (hok : (mkdirs_run L env t).res = .ok ()) :
    ∀ e ∈ (mkdirs_run L env t).trace, ∃ p, e = .mkdir p (env.mkdir p) ∧
      (env.mkdir p = .ok ∨ env.mkdir p = .eexist) := by
  unfold mkdirs_run at hok ⊢
  cases hm : mkdirs L env t.length t with
  | none => simp [hm, Run.stop] at hok
  | some r =>
    simp only [hm] at hok ⊢
    exact mkdirs_made L env _ t r hm hok

theorem mkdirs_run_root (L : Limits) (env : Env) (t : String) (hd : pdirname L t = "/") :
    mkdirs_run L env t = Run.ret () := by
  have h : mkdirs L env 1 t = some (Run.ret ()) := by
    rw [mkdirs]; simp only [if_pos hd]; rfl
  exact mkdirs_run_eq L env 1 t _ h

/-! ## data_dir -/

theorem asprintf_or_err_ok (env : Env) (t : String) (h : env.asprintf t = true) :
    asprintf_or_err env t = Run.ret t := by
  simp [asprintf_or_err, h]

theorem asprintf_or_err_fails (env : Env) (t : String) (h : env.asprintf t = false) :
    asprintf_or_err env t = Run.stop (.exit 1 "asprintf") := by
  simp [asprintf_or_err, h]

theorem data_dir_xdg (L : Limits) (env : Env) (x : String)
    (hx : env.getenv "XDG_DATA_HOME" = some x) :
    data_dir L env = (asprintf_or_err env (x ++ "/gmid")).andThen fun t =>
      (mkdirs_run L env t).andThen fun _ => Run.ret t := by
  simp [data_dir, hx]

theorem data_dir_home (L : Limits) (env : Env) (h : String)
    (hx : env.getenv "XDG_DATA_HOME" = none) (hh : env.getenv "HOME" = some h) :
    data_dir L env = (asprintf_or_err env (h ++ "/.local/share/gmid")).andThen fun t =>
      (mkdirs_run L env t).andThen fun _ => Run.ret t := by
  simp [data_dir, hx, hh]

/-- What `data_dir` does once the path `t` is computed. -/
theorem mkdirs_then_ret (L : Limits) (env : Env) (t : String) :
    let r := (mkdirs_run L env t).andThen fun _ => Run.ret t
    r.trace = (mkdirs_run L env t).trace ∧
    (∀ v, r.res = .ok v ↔ (v = t ∧ (mkdirs_run L env t).res = .ok ())) ∧
    (∀ status msg, r.res ≠ .error (.exit status msg)) ∧
    ((mkdirs_run L env t).res = .error .diverges → r.res = .error .diverges) := by
  intro r
  rcases mkdirs_run_res L env t with h | ⟨m, h⟩ | h
  · have e : r = ⟨(mkdirs_run L env t).trace ++ [], .ok t⟩ := Run.andThen_of_ok _ _ _ h
    rw [e]; simp [h, eq_comm]
  · have e : r = ⟨(mkdirs_run L env t).trace, .error (.fatal m)⟩ := Run.andThen_of_error _ _ _ h
    rw [e]; simp [h]
  · have e : r = ⟨(mkdirs_run L env t).trace, .error .diverges⟩ := Run.andThen_of_error _ _ _ h
    rw [e]; simp [h]

/-- The behaviour of `data_dir` on the path `t` it forms: it exits when
`asprintf` fails; otherwise it does what `mkdirs` does on `t` and returns
`t` exactly when `mkdirs` returns.  In that case every `mkdir` call returned
0 or failed with `EEXIST`; the last one was on `t`, unless the `dirname` of
`t` is `"/"`: then no call is made. -/
theorem data_dir_on (L : Limits) (env : Env) (t : String)
    (hd : data_dir L env = (asprintf_or_err env t).andThen fun t =>
      (mkdirs_run L env t).andThen fun _ => Run.ret t) :
    (env.asprintf t = false →
      (data_dir L env).res = .error (.exit 1 "asprintf") ∧ (data_dir L env).trace = []) ∧
    (env.asprintf t = true →
      (data_dir L env).trace = (mkdirs_run L env t).trace ∧
      (∀ v, (data_dir L env).res = .ok v ↔ (v = t ∧ (mkdirs_run L env t).res = .ok ())) ∧
      (∀ status msg, (data_dir L env).res ≠ .error (.exit status msg)) ∧
      ((mkdirs_run L env t).res = .error .diverges →
        (data_dir L env).res = .error .diverges) ∧
      ((mkdirs_run L env t).res = .ok () →
        (∀ e ∈ (data_dir L env).trace, ∃ p, e = .mkdir p (env.mkdir p) ∧
          (env.mkdir p = .ok ∨ env.mkdir p = .eexist)) ∧
        (pdirname L t ≠ "/" →
          (data_dir L env).trace.getLast? = some (.mkdir t (env.mkdir t)) ∧
          (env.mkdir t = .ok ∨ env.mkdir t = .eexist)) ∧
        (pdirname L t = "/" → (data_dir L env).trace = []))) := by
  constructor
  · intro ha
    rw [hd, asprintf_or_err_fails env t ha]
    exact ⟨rfl, rfl⟩
  · intro ha
    rw [hd, asprintf_or_err_ok env t ha, Run.ret_andThen]
    obtain ⟨h1, h2, h3, h4⟩ := mkdirs_then_ret L env t
    refine ⟨h1, h2, h3, h4, fun hok => ?_⟩
    rw [h1]
    refine ⟨mkdirs_run_made L env t hok, fun hne => ?_, fun hroot => ?_⟩
    · have hlast := mkdirs_run_last L env t hok hne
      refine ⟨hlast, ?_⟩
      obtain ⟨p, hp, hres⟩ := mkdirs_run_made L env t hok _ (List.mem_of_getLast?_eq_some hlast)
      simp only [Event.mkdir.injEq] at hp
      rw [hp.1]; exact hres
    · rw [mkdirs_run_root L env t hroot]; rfl

/-! ## The claims on gmid.h -/

/-- C3: every status constant of `gmid.h` is a two-digit number whose tens
digit is its class (20 in 2x; 30 in 3x; 40, 42, 43 in 4x; 51, 53, 59 in 5x;
60, 61 in 6x), and the ten constants are pairwise distinct. -/
theorem status_constants_classes :
    (∀ c ∈ statusCodes, twoDigit c) ∧
    statusClass SUCCESS = 2 ∧ statusClass TEMP_REDIRECT = 3 ∧
    statusClass TEMP_FAILURE = 4 ∧ statusClass CGI_ERROR = 4 ∧ statusClass PROXY_ERROR = 4 ∧
    statusClass NOT_FOUND = 5 ∧ statusClass PROXY_REFUSED = 5 ∧ statusClass BAD_REQUEST = 5 ∧
    statusClass CLIENT_CERT_REQ = 6 ∧ statusClass CERT_NOT_AUTH = 6 ∧
    SUCCESS = 20 ∧ TEMP_REDIRECT = 30 ∧ TEMP_FAILURE = 40 ∧ CGI_ERROR = 42 ∧
    PROXY_ERROR = 43 ∧ NOT_FOUND = 51 ∧ PROXY_REFUSED = 53 ∧ BAD_REQUEST = 59 ∧
    CLIENT_CERT_REQ = 60 ∧ CERT_NOT_AUTH = 61 ∧
    statusCodes.length = 10 ∧ statusCodes.Nodup := by
  decide

theorem utf8ByteSize_append (a b : String) :
    (a ++ b).utf8ByteSize = a.utf8ByteSize + b.utf8ByteSize := by
  cases a; cases b
  show String.utf8ByteSize ⟨_ ++ _⟩ = _
  simp [String.utf8ByteSize_mk, String.utf8Len_append]

theorem status_two_bytes (code : Nat) (h : twoDigit code) :
    (toString code).utf8ByteSize = 2 := by
  obtain ⟨h1, h2⟩ := h
  interval_cases code <;> rfl

theorem status_two_chars (code : Nat) (h : twoDigit code) :
    (toString code).length = 2 := by
  obtain ⟨h1, h2⟩ := h
  interval_cases code <;> rfl

/-- C4: for every two-digit status code and every meta line of at most 1024
bytes (`GEMINI_URL_LEN` minus the 3 bytes of CRLF and NUL), the byte length
of the header `<status> <meta>\r\n` is at most `sizeof(sbuf)` = 1029.  The
length is taken in UTF-8 bytes and, for a meta line given one character per
byte, in characters. -/
theorem reply_header_fits_sbuf (code : Nat) (meta : String) (hc : twoDigit code) :
    (meta.utf8ByteSize ≤ GEMINI_URL_LEN - 3 →
      (replyHeader code meta).utf8ByteSize ≤ sbuf_size) ∧
    (meta.length ≤ GEMINI_URL_LEN - 3 → (replyHeader code meta).length ≤ sbuf_size) ∧
    sbuf_size = 1029 ∧ GEMINI_URL_LEN - 3 = 1024 := by
  have h := status_two_bytes code hc
  have h2 := status_two_chars code hc
  have e1 : (" " : String).utf8ByteSize = 1 := rfl
  have e2 : ("\r\n" : String).utf8ByteSize = 2 := rfl
  refine ⟨fun hm => ?_, fun hm => ?_, rfl, rfl⟩
  · unfold replyHeader
    rw [utf8ByteSize_append, utf8ByteSize_append, utf8ByteSize_append, h, e1, e2]
    simp only [GEMINI_URL_LEN, sbuf_size] at *
    omega
  · unfold replyHeader
    rw [String.length_append, String.length_append, String.length_append, h2]
    simp only [GEMINI_URL_LEN, sbuf_size] at *
    have e3 : (" " : String).length = 1 := rfl
    have e4 : ("\r\n" : String).length = 2 := rfl
    omega

theorem reply_header_fits_sbuf_witness :
    twoDigit SUCCESS ∧ ("text/gemini" : String).utf8ByteSize ≤ GEMINI_URL_LEN - 3 ∧
      (replyHeader SUCCESS "text/gemini").utf8ByteSize ≤ sbuf_size ∧
      (replyHeader SUCCESS "text/gemini").length ≤ sbuf_size :=
  ⟨by decide, by decide,
    (reply_header_fits_sbuf SUCCESS "text/gemini" (by decide)).1 (by decide),
    (reply_header_fits_sbuf SUCCESS "text/gemini" (by decide)).2.1 (by decide)⟩

/-! ## The claims on data_dir and mkdirs -/

/-- C8 (as stated, refuted): with the `dirname` of glibc the absolute path
`//gmid` has `dirname` `"//"`, whose `dirname` is `"//"` again, so `mkdirs`
does not return on it at any depth, and `data_dir` does not return when
`XDG_DATA_HOME` is `/`. -/
theorem mkdirs_glibc_double_slash_diverges :
    isAbsolute "//gmid" ∧
    pdirname linuxLimits "//gmid" = "//" ∧ pdirname linuxLimits "//" = "//" ∧
    (mkdirs_run linuxLimits sampleEnv "//gmid").res = .error .diverges ∧
    rootXdgEnv.getenv "XDG_DATA_HOME" = some "/" ∧
    (data_dir linuxLimits rootXdgEnv).res = .error .diverges ∧
    ¬ ((∃ fuel r, mkdirs linuxLimits sampleEnv fuel "//gmid" = some r) ↔
      isAbsolute "//gmid") :=
  ⟨by decide, by decide, by decide, rfl, rfl, rfl, fun h => by
    obtain ⟨fuel, r, hr⟩ := h.mpr (by decide)
    rw [mkdirs_doubleSlash linuxLimits (by decide) rfl sampleEnv fuel "//gmid" (by decide)] at hr
    exact absurd hr (by simp)⟩

/-- C8 (amended): the recursion of `mkdirs` ends exactly for the paths that
begin with `'/'`, except, with the `dirname` of glibc, for those that begin
with exactly two slashes.  From such a path the chain of `dirname` results
shortens strictly until it is `"/"`, and `mkdirs` returns.  From a relative
or empty path the chain reaches `"."`, whose `dirname` is `"."` again; with
glibc, from a path that begins with exactly two slashes it reaches `"//"`,
whose `dirname` is `"//"` again; in both cases it is never `"/"` and
`mkdirs` does not return whatever the depth allowed.  Hence `data_dir` does
not return when `XDG_DATA_HOME` (or `HOME`, the former being unset) is a
relative path, nor, with glibc, when the path it forms begins with exactly
two slashes. -/
theorem mkdirs_terminates_iff (L : Limits) (hL : 2 < L.PATH_MAX) (env : Env)
    (path : String) :
    (reachesRoot L path →
      (∃ k, (pdirname L)^[k] path = "/" ∧
        ∀ i < k, ((pdirname L)^[i + 1] path).length < ((pdirname L)^[i] path).length) ∧
      ∃ fuel r, mkdirs L env fuel path = some r) ∧
    (¬ isAbsolute path →
      (∃ k, (pdirname L)^[k] path = ".") ∧ pdirname L "." = "." ∧
      (∀ k, (pdirname L)^[k] path ≠ "/") ∧
      ∀ fuel, mkdirs L env fuel path = none) ∧
    (L.libc = .glibc → doubleSlash path →
      (∃ k, (pdirname L)^[k] path = "//") ∧ pdirname L "//" = "//" ∧
      (∀ k, (pdirname L)^[k] path ≠ "/") ∧
      ∀ fuel, mkdirs L env fuel path = none) ∧
    ((∃ fuel r, mkdirs L env fuel path = some r) ↔ reachesRoot L path) ∧
    (L.libc = .bsd → (reachesRoot L path ↔ isAbsolute path)) ∧
    (path ≠ "" → ¬ isAbsolute path →
      (env.getenv "XDG_DATA_HOME" = some path ∨
        (env.getenv "XDG_DATA_HOME" = none ∧ env.getenv "HOME" = some path)) →
      ((data_dir L env).res = .error .diverges ∨
        (data_dir L env).res = .error (.exit 1 "asprintf"))) ∧
    (L.libc = .glibc →
      ((env.getenv "XDG_DATA_HOME" = some path ∧ doubleSlash (path ++ "/gmid")) ∨
        (env.getenv "XDG_DATA_HOME" = none ∧ env.getenv "HOME" = some path ∧
          doubleSlash (path ++ "/.local/share/gmid"))) →
      ((data_dir L env).res = .error .diverges ∨
        (data_dir L env).res = .error (.exit 1 "asprintf"))) := by
  have hgood : reachesRoot L path → ∃ fuel r, mkdirs L env fuel path = some r := fun ha =>
    ⟨path.length, mkdirs_good L hL env _ path rfl ha⟩
  have hdbl : L.libc = .glibc → doubleSlash path → ∀ fuel, mkdirs L env fuel path = none :=
    fun hg hd fuel => mkdirs_doubleSlash L hL hg env fuel path hd
  have hdnr : ∀ t, (data_dir L env = (asprintf_or_err env t).andThen fun t =>
        (mkdirs_run L env t).andThen fun _ => Run.ret t) →
      mkdirs_run L env t = Run.stop .diverges →
      ((data_dir L env).res = .error .diverges ∨
        (data_dir L env).res = .error (.exit 1 "asprintf")) := by
    intro t hd hm
    cases ha : env.asprintf t with
    | false => exact Or.inr ((data_dir_on L env t hd).1 ha).1
    | true => exact Or.inl (((data_dir_on L env t hd).2 ha).2.2.2.1 (by rw [hm]; rfl))
  refine ⟨fun ha => ⟨chain_good L hL _ path rfl ha, hgood ha⟩, fun hr => ⟨?_, ?_, ?_, ?_⟩,
    fun hg hd => ⟨?_, ?_, ?_, hdbl hg hd⟩, ⟨?_, hgood⟩, ?_, ?_, ?_⟩
  · exact chain_reaches_dot L _ path rfl hr
  · exact pdirname_dot L
  · intro k e
    exact chain_relative L k path hr (e ▸ root_absolute)
  · exact fun fuel => mkdirs_relative L env fuel path hr
  · exact chain_reaches_doubleSlash L hL hg _ path rfl hd
  · exact pdirname_doubleSlash_fixed L hL hg
  · intro k e
    have := chain_doubleSlash L hL hg k path hd
    rw [e] at this
    exact absurd this (by decide)
  · rintro ⟨fuel, r, h⟩
    refine ⟨?_, fun hg hd => ?_⟩
    · by_contra hr
      rw [mkdirs_relative L env fuel path hr] at h
      exact absurd h (by simp)
    · rw [hdbl hg hd fuel] at h
      exact absurd h (by simp)
  · intro hb
    exact ⟨fun h => h.1, fun h => ⟨h, fun hg => by rw [hb] at hg; exact absurd hg (by decide)⟩⟩
  · intro hne hr hset
    rcases hset with hx | ⟨hx, hh⟩
    · exact hdnr _ (data_dir_xdg L env path hx)
        (mkdirs_run_relative L env _ (relative_append path _ hne hr))
    · exact hdnr _ (data_dir_home L env path hx hh)
        (mkdirs_run_relative L env _ (relative_append path _ hne hr))
  · intro hg hset
    rcases hset with ⟨hx, hd⟩ | ⟨hx, hh, hd⟩
    · exact hdnr _ (data_dir_xdg L env path hx) (mkdirs_run_doubleSlash L hL hg env _ hd)
    · exact hdnr _ (data_dir_home L env path hx hh) (mkdirs_run_doubleSlash L hL hg env _ hd)

theorem mkdirs_terminates_iff_witness :
    2 < sampleLimits.PATH_MAX ∧ 2 < linuxLimits.PATH_MAX ∧
    (∃ fuel r, mkdirs sampleLimits sampleEnv fuel "//gmid" = some r) ∧
    (∃ fuel r, mkdirs linuxLimits sampleEnv fuel "/home/op/gmid" = some r) ∧
    (∀ fuel, mkdirs linuxLimits sampleEnv fuel "share/gmid" = none) ∧
    (∀ fuel, mkdirs linuxLimits sampleEnv fuel "//gmid" = none) ∧
    ((data_dir sampleLimits relativeEnv).res = .error .diverges ∨
      (data_dir sampleLimits relativeEnv).res = .error (.exit 1 "asprintf")) ∧
    ((data_dir linuxLimits rootXdgEnv).res = .error .diverges ∨
      (data_dir linuxLimits rootXdgEnv).res = .error (.exit 1 "asprintf")) :=
  ⟨by decide, by decide,
   ((mkdirs_terminates_iff sampleLimits (by decide) sampleEnv "//gmid").1 (by decide)).2,
   ((mkdirs_terminates_iff linuxLimits (by decide) sampleEnv "/home/op/gmid").1
      (by decide)).2,
   ((mkdirs_terminates_iff linuxLimits (by decide) sampleEnv "share/gmid").2.1
      (by decide)).2.2.2,
   ((mkdirs_terminates_iff linuxLimits (by decide) sampleEnv "//gmid").2.2.1
      rfl (by decide)).2.2.2,
   (mkdirs_terminates_iff sampleLimits (by decide) relativeEnv "share").2.2.2.2.2.1
      (by decide) (by decide) (Or.inl rfl),
   (mkdirs_terminates_iff linuxLimits (by decide) rootXdgEnv "/").2.2.2.2.2.2
      rfl (Or.inl ⟨rfl, by decide⟩)⟩

/-! ## serve -/

/-- When no entry binds, the `for` loop of `serve` is left with `sock` and
`cause` as the last entry made them: `-1` and `"socket"` when `socket()`
failed for it, the descriptor (closed by then) and `"bind"` when `bind()`
failed. -/
theorem serve_loop_none_binds :
    ∀ (l : List AddrInfo) (sock : Int) (cause : Option String), noneBinds l →
      (serve_loop l sock cause).res = .ok
        (match l.getLast? with
          | none => (sock, cause)
          | some c =>
            match c.socket with
            | none => (-1, some "socket")
            | some fd => ((fd : Int), some "bind")) := by
  intro l
  induction l with
  | nil => intro sock cause _; rfl
  | cons c next ih =>
    intro sock cause h
    have hn : noneBinds next := fun d hd => h d (List.mem_cons_of_mem _ hd)
    have hc := h c (List.mem_cons_self _ _)
    cases hs : c.socket with
    | none =>
      have e := ih (-1) (some "socket") hn
      simp only [serve_loop, hs, Run.bind_eq, Run.andThen, Run.emit]
      rw [e]
      cases next with
      | nil => simp [hs]
      | cons d rest =>
        obtain ⟨x, hx⟩ : ∃ x, (d :: rest).getLast? = some x :=
          ⟨_, List.getLast?_eq_getLast _ (by simp)⟩
        simp [List.getLast?_cons_cons, hx]
    | some fd =>
      have hb : c.bind = false := by
        rcases hc with h1 | h1
        · rw [hs] at h1; exact absurd h1 (by simp)
        · exact h1
      have e := ih fd (some "bind") hn
      simp only [serve_loop, hs, hb, Run.bind_eq, Run.andThen, Run.emit]
      simp only [Bool.not_false, if_true]
      rw [e]
      cases next with
      | nil => simp [hs]
      | cons d rest =>
        obtain ⟨x, hx⟩ : ∃ x, (d :: rest).getLast? = some x :=
          ⟨_, List.getLast?_eq_getLast _ (by simp)⟩
        simp [List.getLast?_cons_cons, hx]

/-- What `serve` does when no address binds: it ends in `fatal` when the
list is empty or `socket()` failed for its last entry, and it calls `loop`
on the closed descriptor when `bind()` failed for the last entry. -/
theorem serve_none_binds (env : Env) (g : Globals) (host : String) (port : Int)
    (l : List AddrInfo) (hl : env.getaddrinfo host (toString port) = .ok l)
    (h : noneBinds l) :
    (serve env g host port).res =
      match l.getLast? with
      | none => .error (.fatal "(null)")
      | some c =>
        match c.socket with
        | none => .error (.fatal "socket")
        | some fd => .error (.loop fd g) := by
  have e := serve_loop_none_binds l (-1) none h
  simp only [serve, hl, Run.bind_eq]
  rw [Run.andThen_of_ok (Run.emit _) _ () rfl]
  cases hlast : l.getLast? with
  | none =>
    simp only [hlast] at e
    rw [Run.andThen_of_ok _ _ _ e]
    rfl
  | some c =>
    cases hs : c.socket with
    | none =>
      simp only [hlast, hs] at e
      rw [Run.andThen_of_ok _ _ _ e]
      simp only [hs]
      rfl
    | some fd =>
      simp only [hlast, hs] at e
      rw [Run.andThen_of_ok _ _ _ e]
      have : ((fd : Int) = -1) = False := by simp
      simp [this, hs, Run.stop]

/-! ## main -/

theorem Run.andThen_ok {α β : Type} (x : Run α) (f : α → Run β) (b : β)
    (h : (x.andThen f).res = .ok b) :
    ∃ a, x.res = .ok a ∧ (f a).res = .ok b ∧ (x.andThen f).trace = x.trace ++ (f a).trace := by
  cases hx : x.res with
  | error o => simp [Run.andThen, hx] at h
  | ok a =>
    rw [Run.andThen_of_ok _ _ _ hx] at h ⊢
    exact ⟨a, rfl, h, rfl⟩

theorem Run.noLoop_andThen {α β : Type} (x : Run α) (f : α → Run β)
    (hx : x.noLoop) (hf : ∀ a, (f a).noLoop) : (x.andThen f).noLoop := by
  intro sock g
  cases h : x.res with
  | error o =>
    rw [Run.andThen_of_error _ _ _ h]
    intro e
    have e1 : o = .loop sock g := by simpa using e
    exact hx sock g (by rw [h, e1])
  | ok a =>
    rw [Run.andThen_of_ok _ _ _ h]
    exact hf a sock g

theorem Run.noLoop_ret {α : Type} (a : α) : (Run.ret a).noLoop := by
  intro sock g; simp [Run.ret]

theorem Run.noLoop_emit (e : Event) : (Run.emit e).noLoop := by
  intro sock g; simp [Run.emit]

theorem Run.noLoop_fatal {α : Type} (msg : String) : (fatal msg : Run α).noLoop := by
  intro sock g; simp [fatal, Run.stop]

theorem Run.noLoop_usage {α : Type} : (usage : Run α).noLoop := by
  intro sock g; simp [usage, Run.stop]

theorem Run.noLoop_stop {α : Type} (o : Outcome) (h : ∀ sock g, o ≠ .loop sock g) :
    (Run.stop o : Run α).noLoop := by
  intro sock g; simpa [Run.stop] using h sock g

theorem logger_init_noLoop (env : Env) : (logger_init env).noLoop := by
  unfold logger_init
  split
  · exact Run.noLoop_stop _ (by simp)
  · split
    · exact Run.noLoop_stop _ (by simp)
    · exact Run.noLoop_stop _ (by simp)
    · exact Run.noLoop_ret _

theorem option_loop_noLoop (env : Env) :
    ∀ (opts : List GetoptRet) (o : Options), (option_loop env opts o).noLoop := by
  intro opts
  induction opts with
  | nil => intro o; exact Run.noLoop_ret _
  | cons g rest ih =>
    intro o
    unfold option_loop
    split
    · exact ih _
    · split
      · exact ih _
      · split
        · exact Run.noLoop_usage
        · split
          · split
            · exact Run.noLoop_fatal _
            · exact ih _
          · split
            · exact Run.noLoop_stop _ (by simp)
            · exact Run.noLoop_usage

theorem mkdirs_run_noLoop (L : Limits) (env : Env) (t : String) :
    (mkdirs_run L env t).noLoop := by
  intro sock g
  rcases mkdirs_run_res L env t with h | ⟨m, h⟩ | h <;> rw [h] <;> simp

theorem asprintf_or_err_noLoop (env : Env) (t : String) :
    (asprintf_or_err env t).noLoop := by
  unfold asprintf_or_err
  split
  · exact Run.noLoop_ret _
  · exact Run.noLoop_stop _ (by simp)

theorem data_dir_noLoop (L : Limits) (env : Env) : (data_dir L env).noLoop := by
  unfold data_dir
  simp only [Run.bind_eq]
  refine Run.noLoop_andThen _ _ ?_ fun t =>
    Run.noLoop_andThen _ _ (mkdirs_run_noLoop L env t) fun _ => Run.noLoop_ret _
  split
  · split
    · exact Run.noLoop_stop _ (by simp)
    · exact asprintf_or_err_noLoop _ _
  · exact asprintf_or_err_noLoop _ _

theorem load_local_cert_noLoop (L : Limits) (env : Env) (h : Vhost) (hostname dir : String) :
    (load_local_cert L env h hostname dir).noLoop := by
  unfold load_local_cert
  simp only [Run.bind_eq]
  refine Run.noLoop_andThen _ _ (asprintf_or_err_noLoop _ _) fun cert => ?_
  refine Run.noLoop_andThen _ _ (asprintf_or_err_noLoop _ _) fun key => ?_
  refine Run.noLoop_andThen _ _ ?_ fun _ => Run.noLoop_ret _
  split
  · refine Run.noLoop_andThen _ _ (Run.noLoop_emit _) fun _ => ?_
    split
    · exact Run.noLoop_fatal _
    · exact Run.noLoop_ret _
  · exact Run.noLoop_ret _

theorem noLoop_if_fatal (c : Bool) (msg : String) :
    (if c = true then fatal msg else pure () : Run Unit).noLoop := by
  split
  · exact Run.noLoop_fatal _
  · exact Run.noLoop_ret _

/-- The setup part of `main` never calls `loop`. -/
theorem main_setup_noLoop (L : Limits) (env : Env) (opts : List GetoptRet)
    (args : List String) : (main_setup L env opts args).noLoop := by
  unfold main_setup
  simp only [Run.bind_eq]
  refine Run.noLoop_andThen _ _ (logger_init_noLoop env) fun _ => ?_
  refine Run.noLoop_andThen _ _ (option_loop_noLoop env _ _) fun o => ?_
  refine Run.noLoop_andThen _ _ ?_ fun _ => ?_
  · split
    · exact Run.noLoop_usage
    · exact Run.noLoop_ret _
  refine Run.noLoop_andThen _ _ ?_ fun certs_dir => ?_
  · split
    · exact data_dir_noLoop L env
    · exact Run.noLoop_ret _
  refine Run.noLoop_andThen _ _ (noLoop_if_fatal _ _) fun _ => ?_
  refine Run.noLoop_andThen _ _ (load_local_cert_noLoop L env _ _ _) fun host => ?_
  refine Run.noLoop_andThen _ _ ?_ fun dir => ?_
  · split
    · split
      · exact Run.noLoop_fatal _
      · exact Run.noLoop_ret _
    · exact Run.noLoop_ret _
  refine Run.noLoop_andThen _ _ (Run.noLoop_emit _) fun _ => ?_
  refine Run.noLoop_andThen _ _ ?_ fun dirfd => ?_
  · split
    · exact Run.noLoop_fatal _
    · exact Run.noLoop_ret _
  refine Run.noLoop_andThen _ _ (noLoop_if_fatal _ _) fun _ => ?_
  refine Run.noLoop_andThen _ _ (noLoop_if_fatal _ _) fun _ => ?_
  refine Run.noLoop_andThen _ _ (Run.noLoop_emit _) fun _ => ?_
  refine Run.noLoop_andThen _ _ (noLoop_if_fatal _ _) fun _ => ?_
  refine Run.noLoop_andThen _ _ (Run.noLoop_emit _) fun _ => ?_
  refine Run.noLoop_andThen _ _ (noLoop_if_fatal _ _) fun _ => ?_
  exact Run.noLoop_ret _

theorem logger_init_trace (env : Env) : (logger_init env).trace = [] := by
  unfold logger_init
  split
  · rfl
  · split <;> rfl

theorem option_loop_trace (env : Env) :
    ∀ (opts : List GetoptRet) (o : Options), (option_loop env opts o).trace = [] := by
  intro opts
  induction opts with
  | nil => intro o; rfl
  | cons g rest ih =>
    intro o
    unfold option_loop
    split
    · exact ih _
    · split
      · exact ih _
      · split
        · rfl
        · split
          · split
            · rfl
            · exact ih _
          · split <;> rfl

theorem mkdir_or_fatal_trace (env : Env) (path : String) :
    (mkdir_or_fatal env path).trace = [.mkdir path (env.mkdir path)] := by
  simp only [mkdir_or_fatal, Run.bind_eq, Run.pure_eq]
  cases env.mkdir path <;> simp [Run.andThen, Run.emit, Run.ret, fatal, Run.stop]

theorem andThen_trace_all {α β : Type} (P : Event → Prop) (x : Run α) (f : α → Run β)
    (hx : ∀ e ∈ x.trace, P e) (hf : ∀ a, ∀ e ∈ (f a).trace, P e) :
    ∀ e ∈ (x.andThen f).trace, P e := by
  cases h : x.res with
  | error o => rw [Run.andThen_of_error _ _ _ h]; exact hx
  | ok a =>
    rw [Run.andThen_of_ok _ _ _ h]
    intro e he
    rcases List.mem_append.mp he with h1 | h1
    · exact hx e h1
    · exact hf a e h1

theorem mkdirs_trace (L : Limits) (env : Env) :
    ∀ (fuel : Nat) (path : String) (r : Run Unit), mkdirs L env fuel path = some r →
      ∀ e ∈ r.trace, e.isFs = true := by
  intro fuel
  induction fuel with
  | zero => intro path r h; simp [mkdirs] at h
  | succ fuel ih =>
    intro path r h
    rw [mkdirs] at h
    by_cases hd : pdirname L path = "/"
    · simp only [if_pos hd, Option.some.injEq] at h
      subst h; intro e he; simp [Run.ret] at he
    · simp only [if_neg hd] at h
      cases hm : mkdirs L env fuel (pdirname L path) with
      | none => simp [hm] at h
      | some r1 =>
        simp only [hm, Option.some.injEq] at h
        subst h
        refine andThen_trace_all _ _ _ (ih _ _ hm) fun _ e he => ?_
        rw [mkdir_or_fatal_trace] at he
        simp at he; subst he; rfl

theorem mkdirs_run_trace (L : Limits) (env : Env) (t : String) :
    ∀ e ∈ (mkdirs_run L env t).trace, e.isFs = true := by
  unfold mkdirs_run
  cases hm : mkdirs L env t.length t with
  | none => intro e he; simp [Run.stop] at he
  | some r => exact mkdirs_trace L env _ _ r hm

theorem asprintf_or_err_trace (env : Env) (t : String) :
    (asprintf_or_err env t).trace = [] := by
  unfold asprintf_or_err
  split <;> rfl

theorem data_dir_trace (L : Limits) (env : Env) :
    ∀ e ∈ (data_dir L env).trace, e.isFs = true := by
  unfold data_dir
  simp only [Run.bind_eq]
  refine andThen_trace_all _ _ _ ?_ fun t =>
    andThen_trace_all _ _ _ (mkdirs_run_trace L env t) fun _ e he => by simp [Run.ret] at he
  split
  · split
    · intro e he; simp [Run.stop] at he
    · intro e he; simp [asprintf_or_err_trace] at he
  · intro e he; simp [asprintf_or_err_trace] at he

theorem load_local_cert_trace (L : Limits) (env : Env) (h : Vhost) (hostname dir : String) :
    ∀ e ∈ (load_local_cert L env h hostname dir).trace, e.isFs = true := by
  unfold load_local_cert
  simp only [Run.bind_eq]
  refine andThen_trace_all _ _ _
    (by intro e he; simp [asprintf_or_err_trace] at he) fun cert => ?_
  refine andThen_trace_all _ _ _
    (by intro e he; simp [asprintf_or_err_trace] at he) fun key => ?_
  refine andThen_trace_all _ _ _ ?_ fun _ e he => by simp [Run.ret] at he
  split
  · refine andThen_trace_all _ _ _ ?_ fun _ => ?_
    · intro e he; simp [Run.emit] at he; subst he; rfl
    · split <;> (intro e he; simp [fatal, Run.stop, Run.ret] at he)
  · intro e he; simp [Run.ret] at he

theorem if_fatal_trace (c : Bool) (msg : String) :
    (if c = true then fatal msg else pure () : Run Unit).trace = [] := by
  split <;> rfl

theorem if_usage_trace (p : Prop) [Decidable p] :
    (if p then usage else pure () : Run Unit).trace = [] := by
  split <;> rfl

theorem if_fatal_ok (c : Bool) (msg : String) (u : Unit)
    (h : (if c = true then fatal msg else pure () : Run Unit).res = .ok u) :
    c = false ∧ (if c = true then fatal msg else pure () : Run Unit).trace = [] := by
  cases c
  · exact ⟨rfl, rfl⟩
  · simp [fatal, Run.stop] at h

/-- When the setup of `main` goes through, its events are `mkdir` and
`gen_certificate` events followed by the successful `open` of the document
root, the successful load of the key pair and the successful
`tls_configure`, in this order. -/
theorem main_setup_trace (L : Limits) (env : Env) (opts : List GetoptRet)
    (args : List String) (s : Setup) (h : (main_setup L env opts args).res = .ok s) :
    ∃ pre dir fd cert key, (∀ e ∈ pre, e.isFs = true) ∧
      (main_setup L env opts args).trace =
        pre ++ [.open_dir dir (some fd), .keypair_file cert key true, .tls_configure true] := by
  simp only [main_setup, Run.bind_eq] at h ⊢
  obtain ⟨_, _, h, t1⟩ := Run.andThen_ok _ _ _ h
  obtain ⟨o, _, h, t2⟩ := Run.andThen_ok _ _ _ h
  obtain ⟨_, _, h, t3⟩ := Run.andThen_ok _ _ _ h
  obtain ⟨certs_dir, _, h, t4⟩ := Run.andThen_ok _ _ _ h
  obtain ⟨_, _, h, t5⟩ := Run.andThen_ok _ _ _ h
  obtain ⟨host, _, h, t6⟩ := Run.andThen_ok _ _ _ h
  obtain ⟨dir, hdir, h, t7⟩ := Run.andThen_ok _ _ _ h
  obtain ⟨_, _, h, t8⟩ := Run.andThen_ok _ _ _ h
  obtain ⟨dirfd, hfd, h, t9⟩ := Run.andThen_ok _ _ _ h
  obtain ⟨_, h10, h, t10⟩ := Run.andThen_ok _ _ _ h
  obtain ⟨_, h11, h, t11⟩ := Run.andThen_ok _ _ _ h
  obtain ⟨_, _, h, t12⟩ := Run.andThen_ok _ _ _ h
  obtain ⟨_, h13, h, t13⟩ := Run.andThen_ok _ _ _ h
  obtain ⟨_, _, h, t14⟩ := Run.andThen_ok _ _ _ h
  obtain ⟨_, h15, h, t15⟩ := Run.andThen_ok _ _ _ h
  rw [t1, t2, t3, t4, t5, t6, t7, t8, t9, t10, t11, t12, t13, t14, t15]
  have hk := (if_fatal_ok _ _ _ h13).1
  have hc := (if_fatal_ok _ _ _ h15).1
  simp only [Bool.not_eq_false'] at hk hc
  have hpre1 : ∀ e ∈ (match o.certs_dir with
      | none => data_dir L env
      | some d => pure d : Run String).trace, e.isFs = true := by
    split
    · exact data_dir_trace L env
    · intro e he; simp [Run.ret] at he
  have hdirt : (match args.head? with
      | none =>
        match env.getcwd with
        | none => fatal "getcwd"
        | some path => pure (strlcpy "" path L.PATH_MAX)
      | some arg => pure (strlcpy "" (env.absolutify_path arg) L.PATH_MAX) : Run String).trace
        = [] := by
    split
    · split <;> rfl
    · rfl
  cases hopen : env.open_dir dir with
  | none => simp [hopen, fatal, Run.stop] at hfd
  | some fd =>
    refine ⟨(match o.certs_dir with
      | none => data_dir L env
      | some d => pure d : Run String).trace ++
        (load_local_cert L env {} o.hostname certs_dir).trace,
      dir, fd, host.cert, host.key, ?_, ?_⟩
    · intro e he
      rcases List.mem_append.mp he with h1 | h1
      · exact hpre1 e h1
      · exact load_local_cert_trace L env _ _ _ e h1
    · rw [logger_init_trace, option_loop_trace, if_usage_trace, hdirt]
      simp only [if_fatal_trace, hk, hc, hopen]
      simp [Run.emit, Run.ret]

theorem serve_loop_trace :
    ∀ (l : List AddrInfo) (sock : Int) (cause : Option String),
      ∀ e ∈ (serve_loop l sock cause).trace, e.isNet = true := by
  intro l
  induction l with
  | nil => intro sock cause e he; simp [serve_loop, Run.ret] at he
  | cons c next ih =>
    intro sock cause
    unfold serve_loop
    simp only [Run.bind_eq]
    refine andThen_trace_all _ _ _ (by intro e he; simp [Run.emit] at he; subst he; rfl)
      fun _ => ?_
    split
    · exact ih _ _
    · refine andThen_trace_all _ _ _ (by intro e he; simp [Run.emit] at he; subst he; rfl)
        fun _ => ?_
      split
      · exact andThen_trace_all _ _ _ (by intro e he; simp [Run.emit] at he; subst he; rfl)
          fun _ => ih _ _
      · refine andThen_trace_all _ _ _
          (by intro e he; simp [Run.emit] at he; subst he; rfl) fun _ => ?_
        split <;> (intro e he; simp [fatal, Run.stop, Run.ret] at he)

theorem serve_trace (env : Env) (g : Globals) (host : String) (port : Int) :
    ∀ e ∈ (serve env g host port).trace, e.isNet = true := by
  unfold serve
  simp only [Run.bind_eq]
  refine andThen_trace_all _ _ _ (by intro e he; simp [Run.emit] at he; subst he; rfl)
    fun _ => ?_
  split
  · intro e he; simp [fatal, Run.stop] at he
  · refine andThen_trace_all _ _ _ (serve_loop_trace _ _ _) fun p => ?_
    split <;> (intro e he; simp [fatal, Run.stop] at he)

theorem serve_loop_noLoop :
    ∀ (l : List AddrInfo) (sock : Int) (cause : Option String),
      (serve_loop l sock cause).noLoop := by
  intro l
  induction l with
  | nil => intro sock cause; exact Run.noLoop_ret _
  | cons c next ih =>
    intro sock cause
    unfold serve_loop
    simp only [Run.bind_eq]
    refine Run.noLoop_andThen _ _ (Run.noLoop_emit _) fun _ => ?_
    split
    · exact ih _ _
    · refine Run.noLoop_andThen _ _ (Run.noLoop_emit _) fun _ => ?_
      split
      · exact Run.noLoop_andThen _ _ (Run.noLoop_emit _) fun _ => ih _ _
      · refine Run.noLoop_andThen _ _ (Run.noLoop_emit _) fun _ => ?_
        split
        · exact Run.noLoop_fatal _
        · exact Run.noLoop_ret _

theorem Run.andThen_error {α β : Type} (x : Run α) (f : α → Run β) (o : Outcome)
    (h : (x.andThen f).res = .error o) :
    x.res = .error o ∨ ∃ a, x.res = .ok a ∧ (f a).res = .error o := by
  cases hx : x.res with
  | error o1 =>
    rw [Run.andThen_of_error _ _ _ hx] at h
    left
    have e1 : o1 = o := by simpa using h
    rw [e1]
  | ok a =>
    rw [Run.andThen_of_ok _ _ _ hx] at h
    exact Or.inr ⟨a, rfl, h⟩

/-- When `serve` calls `loop`, the globals are those it was entered with and
the socket is a descriptor that `socket()` returned. -/
theorem serve_loop_outcome (env : Env) (g g1 : Globals) (host : String) (port : Int)
    (sock : Int) (h : (serve env g host port).res = .error (.loop sock g1)) :
    g1 = g ∧ sock ≠ -1 := by
  simp only [serve, Run.bind_eq] at h
  rcases Run.andThen_error _ _ _ h with h1 | ⟨_, _, h1⟩
  · simp [Run.emit] at h1
  · cases hg : env.getaddrinfo host (toString port) with
    | error e => simp [hg, fatal, Run.stop] at h1
    | ok l =>
      simp only [hg] at h1
      rcases Run.andThen_error _ _ _ h1 with h2 | ⟨p, _, h2⟩
      · exact absurd h2 (serve_loop_noLoop _ _ _ _ _)
      · by_cases hs : p.1 = -1
        · simp [hs, fatal, Run.stop] at h2
        · simp only [if_neg hs, Run.stop] at h2
          simp at h2
          exact ⟨h2.2.symm, h2.1 ▸ hs⟩

/-- A call of `loop` by `main` comes after a setup that went through, and
`loop` finds the globals of that setup. -/
theorem main_loop_setup (L : Limits) (env : Env) (opts : List GetoptRet)
    (args : List String) (sock : Int) (g : Globals)
    (h : (main L env opts args).res = .error (.loop sock g)) :
    ∃ s, (main_setup L env opts args).res = .ok s ∧ s.g = g ∧
      (main L env opts args).trace =
        (main_setup L env opts args).trace ++ (serve env s.g s.hostname s.g.port).trace := by
  unfold main at h ⊢
  rcases Run.andThen_error _ _ _ h with h1 | ⟨s, h1, h2⟩
  · exact absurd h1 (main_setup_noLoop L env opts args sock g)
  · refine ⟨s, h1, (serve_loop_outcome env _ _ _ _ _ h2).1.symm, ?_⟩
    rw [Run.andThen_of_ok _ _ _ h1]

/-- When `main` calls `loop`, the events of the run are: `mkdir` and
`gen_certificate` events, then the successful `open` of the document root,
the successful load of the key pair and the successful `tls_configure`, then
the events of `serve`. -/
theorem main_loop_after_setup (L : Limits) (env : Env) (opts : List GetoptRet)
    (args : List String) (sock : Int) (g : Globals)
    (h : (main L env opts args).res = .error (.loop sock g)) :
    ∃ pre dir fd cert key post, (∀ e ∈ pre, e.isFs = true) ∧ (∀ e ∈ post, e.isNet = true) ∧
      (main L env opts args).trace =
        pre ++ [.open_dir dir (some fd), .keypair_file cert key true, .tls_configure true]
          ++ post := by
  obtain ⟨s, hs, _, ht⟩ := main_loop_setup L env opts args sock g h
  obtain ⟨pre, dir, fd, cert, key, hpre, hst⟩ := main_setup_trace L env opts args s hs
  exact ⟨pre, dir, fd, cert, key, _, hpre, serve_trace env s.g s.hostname s.g.port,
    by rw [ht, hst]⟩

theorem serve_loop_cause :
    ∀ (l : List AddrInfo) (sock : Int) (cause : Option String) (p : Int × Option String),
      (sock = -1 → cause ≠ some "bind") → (serve_loop l sock cause).res = .ok p →
      p.1 = -1 → p.2 ≠ some "bind" := by
  intro l
  induction l with
  | nil =>
    intro sock cause p hinv h
    simp only [serve_loop, Run.pure_eq, Run.ret, Except.ok.injEq] at h
    subst h; exact hinv
  | cons c next ih =>
    intro sock cause p hinv h
    simp only [serve_loop, Run.bind_eq] at h
    obtain ⟨_, _, h⟩ := Run.andThen_res_ok _ _ _ h
    cases hs : c.socket with
    | none =>
      simp only [hs] at h
      exact ih _ _ p (by intro _; decide) h
    | some fd =>
      simp only [hs] at h
      obtain ⟨_, _, h⟩ := Run.andThen_res_ok _ _ _ h
      cases hb : c.bind with
      | false =>
        simp only [hb, Bool.not_false, if_true] at h
        obtain ⟨_, _, h⟩ := Run.andThen_res_ok _ _ _ h
        exact ih _ _ p (by intro e; simp at e) h
      | true =>
        simp only [hb, Bool.not_true, Bool.false_eq_true, if_false] at h
        obtain ⟨_, _, h⟩ := Run.andThen_res_ok _ _ _ h
        cases hl : c.listen with
        | false => simp [hl, fatal, Run.stop] at h
        | true =>
          simp [hl, Run.ret] at h
          subst h
          intro e; simp at e

theorem serve_loop_error :
    ∀ (l : List AddrInfo) (sock : Int) (cause : Option String) (o : Outcome),
      (serve_loop l sock cause).res = .error o → o = .fatal "listen" := by
  intro l
  induction l with
  | nil => intro sock cause o h; simp [serve_loop, Run.ret] at h
  | cons c next ih =>
    intro sock cause o h
    simp only [serve_loop, Run.bind_eq] at h
    rcases Run.andThen_error _ _ _ h with h | ⟨_, _, h⟩
    · simp [Run.emit] at h
    · cases hs : c.socket with
      | none => simp only [hs] at h; exact ih _ _ o h
      | some fd =>
        simp only [hs] at h
        rcases Run.andThen_error _ _ _ h with h | ⟨_, _, h⟩
        · simp [Run.emit] at h
        · cases hb : c.bind with
          | false =>
            simp only [hb, Bool.not_false, if_true] at h
            rcases Run.andThen_error _ _ _ h with h | ⟨_, _, h⟩
            · simp [Run.emit] at h
            · exact ih _ _ o h
          | true =>
            simp only [hb, Bool.not_true, Bool.false_eq_true, if_false] at h
            rcases Run.andThen_error _ _ _ h with h | ⟨_, _, h⟩
            · simp [Run.emit] at h
            · cases hl : c.listen with
              | false => simp [hl, fatal, Run.stop] at h; exact h.symm
              | true => simp [hl, Run.ret] at h

/-- The diagnostic `bind` is never given by `serve`: `fatal(cause)` is only
reached with `sock == -1`, that is after a failure of `socket()` for the
last entry, which has set `cause` to `socket`. -/
theorem serve_never_fatal_bind (env : Env) (g : Globals) (host : String) (port : Int)
    (hg : env.getaddrinfo host (toString port) ≠ .error "bind") :
    (serve env g host port).res ≠ .error (.fatal "bind") := by
  intro h
  simp only [serve, Run.bind_eq] at h
  rcases Run.andThen_error _ _ _ h with h1 | ⟨_, _, h1⟩
  · simp [Run.emit] at h1
  · cases hga : env.getaddrinfo host (toString port) with
    | error e =>
      simp [hga, fatal, Run.stop] at h1
      exact hg (by rw [hga, h1])
    | ok l =>
      simp only [hga] at h1
      rcases Run.andThen_error _ _ _ h1 with h2 | ⟨p, hp, h2⟩
      · have := serve_loop_error _ _ _ _ h2
        simp at this
      · by_cases hs : p.1 = -1
        · have hc := serve_loop_cause l (-1) none p (by intro _; simp) hp hs
          simp only [if_pos hs, fatal, Run.stop] at h2
          simp at h2
          cases hp2 : p.2 with
          | none => simp [hp2] at h2
          | some c => simp [hp2] at h2; exact hc (by rw [hp2, h2])
        · simp [if_neg hs, Run.stop] at h2

theorem strlcpy_star (dst : String) (n : Nat) (hn : 0 < n) : strlcpy dst "*" (n + 1) = "*" := by
  obtain ⟨m, rfl⟩ : ∃ m, n = m + 1 := ⟨n - 1, by omega⟩
  simp [strlcpy]

/-! ## The claims on serve and main -/

/-- C1 (evaluation at the failing input): when the only address of
`getaddrinfo` fails at `bind()`, `serve` closes the descriptor (4) and
still calls `loop` on it: no socket was bound or put in listen state, and
`fatal` is not called. -/
theorem serve_bind_failure_enters_loop (g : Globals) :
    noneBinds [{ socket := some 4, bind := false, listen := true }] ∧
    serve bindFailsEnv g "localhost" 1965 =
      ⟨[.getaddrinfo "localhost" "1965", .socket (some 4), .bind 4 false, .close 4],
        .error (.loop 4 g)⟩ :=
  ⟨by intro c hc; simp at hc; subst hc; exact Or.inr rfl, rfl⟩

/-- C2: whenever `main` reaches `serve`, and so whenever it enters `loop`,
the configuration satisfies the vhost invariant: `hosts` holds exactly one
vhost, its domain is `*`, and its only location has `match` = `*`,
`fcgi` = -1 and `auto_index` = 1.  The host name that `load_local_cert`
writes into `domain` is overwritten. -/
theorem main_vhost_invariant (L : Limits) (hL : 0 < L.HOST_NAME_MAX) (env : Env)
    (opts : List GetoptRet) (args : List String) :
    (∀ s, (main_setup L env opts args).res = .ok s → vhostInvariant s.g.hosts) ∧
    (∀ sock g, (main L env opts args).res = .error (.loop sock g) → vhostInvariant g.hosts) ∧
    (∀ h hostname dir v, (load_local_cert L env h hostname dir).res = .ok v →
      v.domain = strlcpy h.domain hostname (L.HOST_NAME_MAX + 1)) := by
  have key : ∀ s, (main_setup L env opts args).res = .ok s → vhostInvariant s.g.hosts := by
    intro s h
    simp only [main_setup, Run.bind_eq] at h
    obtain ⟨_, _, h⟩ := Run.andThen_res_ok _ _ _ h
    obtain ⟨o, _, h⟩ := Run.andThen_res_ok _ _ _ h
    obtain ⟨_, _, h⟩ := Run.andThen_res_ok _ _ _ h
    obtain ⟨certs_dir, _, h⟩ := Run.andThen_res_ok _ _ _ h
    obtain ⟨_, _, h⟩ := Run.andThen_res_ok _ _ _ h
    obtain ⟨host, _, h⟩ := Run.andThen_res_ok _ _ _ h
    obtain ⟨dir, _, h⟩ := Run.andThen_res_ok _ _ _ h
    obtain ⟨_, _, h⟩ := Run.andThen_res_ok _ _ _ h
    obtain ⟨dirfd, _, h⟩ := Run.andThen_res_ok _ _ _ h
    obtain ⟨_, _, h⟩ := Run.andThen_res_ok _ _ _ h
    obtain ⟨_, _, h⟩ := Run.andThen_res_ok _ _ _ h
    obtain ⟨_, _, h⟩ := Run.andThen_res_ok _ _ _ h
    obtain ⟨_, _, h⟩ := Run.andThen_res_ok _ _ _ h
    obtain ⟨_, _, h⟩ := Run.andThen_res_ok _ _ _ h
    obtain ⟨_, _, h⟩ := Run.andThen_res_ok _ _ _ h
    simp only [Run.pure_eq, Run.ret, Except.ok.injEq] at h
    subst h
    refine ⟨_, _, rfl, ?_, rfl, rfl, rfl, rfl⟩
    exact strlcpy_star host.domain _ hL
  refine ⟨key, ?_, ?_⟩
  · intro sock g h
    obtain ⟨s, hs, hg, _⟩ := main_loop_setup L env opts args sock g h
    exact hg ▸ key s hs
  · intro h hostname dir v hv
    simp only [load_local_cert, Run.bind_eq] at hv
    obtain ⟨_, _, hv⟩ := Run.andThen_res_ok _ _ _ hv
    obtain ⟨_, _, hv⟩ := Run.andThen_res_ok _ _ _ hv
    obtain ⟨_, _, hv⟩ := Run.andThen_res_ok _ _ _ hv
    simp only [Run.pure_eq, Run.ret, Except.ok.injEq] at hv
    subst hv
    rfl

theorem main_vhost_invariant_witness :
    0 < sampleLimits.HOST_NAME_MAX ∧
    (main_setup sampleLimits sampleEnv [{ ch := 'H', optarg := "example.com" }] []).res =
      .ok (sampleSetup "example.com") ∧
    vhostInvariant (sampleSetup "example.com").g.hosts :=
  ⟨by decide, rfl,
    (main_vhost_invariant sampleLimits (by decide) sampleEnv
      [{ ch := 'H', optarg := "example.com" }] []).1 _ rfl⟩

/-- C6 (evaluation at the failing input): `-v` is advertised by the usage
line and is in the option string, so `getopt_long` returns `'v'` for it; the
`switch` has no case for it, and the command line `ge -v` ends in `usage()`
where `ge` alone starts the server.  The same holds wherever `-v` comes up
in the option loop. -/
theorem main_v_flag_usage :
    'v' ∈ optstring.data ∧
    (main sampleLimits sampleEnv [] []).res = .error (.loop 4 (sampleSetup "localhost").g) ∧
    (main sampleLimits sampleEnv [{ ch := 'v' }] []).res = .error .usage ∧
    (∀ (env : Env) (optarg : String) (rest : List GetoptRet) (o : Options),
      option_loop env ({ ch := 'v', optarg := optarg } :: rest) o = usage) :=
  ⟨by decide, rfl, rfl, fun _ _ _ _ => rfl⟩

/-- C7 (evaluation at the failing input): with the document root opened,
the key pair loaded and `tls_configure` done, a `bind()` failure for the
only address does not end in `fatal`: `main` enters `loop` on descriptor 4,
which was closed and never put in listen state. -/
theorem main_enters_loop_without_listening_socket :
    (main sampleLimits bindFailsEnv [] []).res =
      .error (.loop 4 (sampleSetup "localhost").g) ∧
    (∀ fd ok, Event.listen fd ok ∉ (main sampleLimits bindFailsEnv [] []).trace) ∧
    (main sampleLimits bindFailsEnv [] []).trace =
      [.mkdir "/home/op" .eexist, .mkdir "/home/op/.local" .eexist,
       .mkdir "/home/op/.local/share" .eexist, .mkdir "/home/op/.local/share/gmid" .eexist,
       .open_dir "/var/gemini" (some 3),
       .keypair_file "/home/op/.local/share/gmid/localhost.cert.pem"
         "/home/op/.local/share/gmid/localhost.key.pem" true,
       .tls_configure true,
       .getaddrinfo "localhost" "1965", .socket (some 4), .bind 4 false, .close 4] :=
  have ht : (main sampleLimits bindFailsEnv [] []).trace =
      [.mkdir "/home/op" .eexist, .mkdir "/home/op/.local" .eexist,
       .mkdir "/home/op/.local/share" .eexist, .mkdir "/home/op/.local/share/gmid" .eexist,
       .open_dir "/var/gemini" (some 3),
       .keypair_file "/home/op/.local/share/gmid/localhost.cert.pem"
         "/home/op/.local/share/gmid/localhost.key.pem" true,
       .tls_configure true,
       .getaddrinfo "localhost" "1965", .socket (some 4), .bind 4 false, .close 4] := rfl
  ⟨rfl, fun fd ok h => by rw [ht] at h; simp at h, ht⟩

end Gmid
